import Mathlib

/-!
# Alien invasion: the coordinator, its transitions and the actor loops

A shallow embedding of `simulation/simulation.go` (package `v2`).

Representation of the Go data.

* `World.aliens : map[uint64]*Alien` and `World.cities : map[string]*City` are maps of
  pointers.  Objects are allocated only by `ParseWorld`, which stores the city `c` under the
  key `c.name` and the alien `a` under the key `a.id`, and no object is ever copied into a
  second allocation that the world can reach.  A `*City` is therefore represented by the
  city's name and a `*Alien` by the alien's id; the `name` and `id` fields are the pointer
  itself.  `nil` is `none`.
* A map is the list of its keys (`World.aliens`, `World.cities`) together with the store of
  the objects (`World.alienAt`, `World.cityAt`).  `delete(m, k)` removes the key; the object
  stays in the store, as it does in Go, where `City.alien` or `Alien.city` may still point
  to it.
* `City.roads : map[string]string` is an association list of (label, destination); a Go map
  holds one entry per key, so the labels of a road list are distinct (`ParseWorld` builds
  such lists).
* The context of an alien is the flag `Alien.cancelled`: `Cancel` sets it, the actor loop
  reads it (`ctx.Done()`).
* A transition returns `none` when the Go code panics (nil pointer dereference), and
  `some w` with the world it leaves otherwise.
* `rand.Intn(n)` is `r % n` for a number `r` supplied by the caller.
* The field `World.activeAliens` is never read or written by the program and is left out.
* The order in which `range` visits a map and the values of `rand.Intn` are not determined by
  the program; the functions below take them as arguments (`order`, `rs`), and so do they
  take the movement intents that the actor loops send (`msgs`).
* An actor loop (`Alien.Invade`) is the list of the messages it sends, given what the `select`
  of each iteration sees of `ctx.Done()`.  The channels are unbuffered, so the coordinator
  receives an interleaving of these lists (`Interleaves`); `coordinate` is its loop over the
  messages received, with the counter `activeAliens`.
-/

namespace Invasion

/-- The Go type `Direction` (`type Direction int`). -/
abbrev Direction := Int

/-- The method `Direction.String`. -/
def Direction.String (d : Direction) : String :=
  if d = 0 then "north"
  else if d = 1 then "south"
  else if d = 2 then "west"
  else if d = 3 then "east"
  else ""

/-- The struct `City`; `alien` is the `*Alien` of the occupant. -/
structure City where
  roads : List (String × String)
  alien : Option Nat

/-- The struct `Alien`; `cancelled` is the state of its context, `city` is its `*City`. -/
structure Alien where
  cancelled : Bool
  city : Option String

/-- The struct `Hovercraft`. -/
structure Hovercraft where
  alienId : Nat
  direction : Int
  initialCity : String
  deriving DecidableEq

/-- The struct `World`: the keys of the two maps and the objects they point to. -/
structure World where
  aliens : List Nat
  cities : List String
  alienAt : Nat → Alien
  cityAt : String → City

/-- The method `Alien.Cancel`, on the alien object `a`. -/
def World.cancel (w : World) (a : Nat) : World :=
  { w with alienAt := fun k => if k = a then { w.alienAt k with cancelled := true } else w.alienAt k }

/-- The assignment `alien.city = c` on the alien object `a`. -/
def World.setAlienCity (w : World) (a : Nat) (c : Option String) : World :=
  { w with alienAt := fun k => if k = a then { w.alienAt k with city := c } else w.alienAt k }

/-- The assignment `city.alien = a` on the city object `n`. -/
def World.setCityAlien (w : World) (n : String) (a : Option Nat) : World :=
  { w with cityAt := fun k => if k = n then { w.cityAt k with alien := a } else w.cityAt k }

/-- Replace the road map of the city object `n`. -/
def World.setRoads (w : World) (n : String) (r : List (String × String)) : World :=
  { w with cityAt := fun k => if k = n then { w.cityAt k with roads := r } else w.cityAt k }

/-- The statement `delete(world.aliens, a)`. -/
def World.deleteAlien (w : World) (a : Nat) : World :=
  { w with aliens := w.aliens.filter (fun k => k != a) }

/-- The statement `delete(world.cities, n)`. -/
def World.deleteCity (w : World) (n : String) : World :=
  { w with cities := w.cities.filter (fun k => k != n) }

/-- The map lookup `world.aliens[id]`, a `*Alien`. -/
def World.alienPtr (w : World) (id : Nat) : Option Nat :=
  if id ∈ w.aliens then some id else none

/-- The inner loop of `fight`:
`for d, to := range roads { if to == city { delete(roads, d) } }`. -/
def pruneRoads (roads : List (String × String)) (city : String) : List (String × String) :=
  roads.filter (fun r => r.2 != city)

/-- One iteration of the loop `for direction := range []int{0, 1, 2, 3}` of `fight`. -/
def pruneStep (city : String) (acc : Option World) (direction : Int) : Option World :=
  match acc with
  | none => none
  | some w =>
    match (w.cityAt city).roads.lookup (Direction.String direction) with
    | none => some w
    | some dest =>
      if dest ∈ w.cities then
        some (w.setRoads dest (pruneRoads (w.cityAt dest).roads city))
      else none

/-- The method `World.fight`; `alien` is the `*Alien` of the challenger. -/
def fight (world : World) (city : String) (alien : Option Nat) : Option World :=
  if city ∈ world.cities then
    match (world.cityAt city).alien with
    | none => some world
    | some incumbent =>
      match alien with
      | none => none
      | some a =>
        let w1 := (world.cancel a).cancel incumbent
        let w2 := (w1.deleteAlien a).deleteAlien incumbent
        match [0, 1, 2, 3].foldl (pruneStep city) (some w2) with
        | none => none
        | some w3 => some (w3.deleteCity city)
  else none

/-- The method `World.occupy`. -/
def occupy (world : World) (hovercraft : Hovercraft) : Option World :=
  if hovercraft.initialCity ∈ world.cities then
    match (world.cityAt hovercraft.initialCity).alien with
    | some _ => fight world hovercraft.initialCity (world.alienPtr hovercraft.alienId)
    | none =>
      match world.alienPtr hovercraft.alienId with
      | none => none
      | some alien =>
        some ((world.setAlienCity alien (some hovercraft.initialCity)).setCityAlien
          hovercraft.initialCity (some alien))
  else none

/-- The method `World.spin`. -/
def spin (world : World) (hovercraft : Hovercraft) : Option World :=
  match world.alienPtr hovercraft.alienId with
  | none => some world
  | some alien =>
    match (world.alienAt alien).city with
    | none => none
    | some frm =>
      if (world.cityAt frm).roads.length = 0 then some (world.cancel alien)
      else if frm ∈ world.cities then
        match (world.cityAt frm).roads.lookup (Direction.String hovercraft.direction) with
        | none => some world
        | some toCity =>
          let w1 := world.setCityAlien frm none
          if toCity ∈ w1.cities then
            match (w1.cityAt toCity).alien with
            | some _ => fight w1 toCity (some alien)
            | none =>
              some ((w1.setAlienCity alien (some toCity)).setCityAlien toCity (some alien))
          else none
      else none

/-- The method `World.chooseCity`; `r` is the random source of `rand.Intn`. -/
def chooseCity (world : World) (r : Nat) : String :=
  if world.cities.length = 0 then ""
  else world.cities.getD (r % world.cities.length) ""

/-- The first loop of `StartWar`, `for _, alien := range world.aliens`: `order` is the order
in which the range visits the keys, `rs` the random numbers drawn.  A key deleted before it
is reached is not visited. -/
def initialPlacement (world : World) : List Nat → List Nat → Option World
  | [], _ => some world
  | id :: order, rs =>
    if id ∈ world.aliens then
      let city := chooseCity world rs.headI
      if city = "" then some world
      else
        match occupy world { alienId := id, direction := 0, initialCity := city } with
        | none => none
        | some w => initialPlacement w order rs.tail
    else initialPlacement world order rs

/-- The coordinator handling the movement intents `msgs` one after the other. -/
def spinAll (world : World) : List Hovercraft → Option World
  | [] => some world
  | h :: msgs =>
    match spin world h with
    | none => none
    | some w => spinAll w msgs

/-- The body of `ParseWorld` after the file is split: `lines` holds, for each line, the city
name and its (label, destination) pairs. -/
def ParseWorld (lines : List (String × List (String × String))) (numAliens : Nat) : World :=
  lines.foldl
    (fun w l =>
      { w with
        cities := if l.1 ∈ w.cities then w.cities else w.cities ++ [l.1]
        cityAt := fun k =>
          if k = l.1 then
            { roads := l.2.foldl
                (fun m r => if (m.lookup r.1).isSome
                  then m.map (fun e => if e.1 = r.1 then r else e) else m ++ [r]) []
              alien := none }
          else w.cityAt k })
    { aliens := List.range numAliens
      cities := []
      alienAt := fun _ => { cancelled := false, city := none }
      cityAt := fun _ => { roads := [], alien := none } }

/-- The file `testdata/world.txt`. -/
def testWorld : List (String × List (String × String)) :=
  [("Foo", [("north", "Bar"), ("west", "Baz"), ("south", "Qu-ux")]),
   ("Bar", [("south", "Foo")]),
   ("Baz", [("east", "Foo")]),
   ("Qu-ux", [("north", "Foo")])]

/-- The method `World.StartWar`: the placement loop, the test `len(world.cities) == 0`, then
the coordinator loop, which receives the movement intents `msgs` (completion signals leave
the world untouched). -/
def StartWar (world : World) (order rs : List Nat) (msgs : List Hovercraft) : Option World :=
  match initialPlacement world order rs with
  | none => none
  | some w => if w.cities.length = 0 then some w else spinAll w msgs

/-- A structurally valid input graph: unique city names, road labels within the four
directions, every road destination a city of the graph. -/
def ValidGraph (lines : List (String × List (String × String))) : Prop :=
  (lines.map (fun l => l.1)).Nodup ∧
  ∀ l ∈ lines, ∀ r ∈ l.2,
    r.1 ∈ ["north", "south", "east", "west"] ∧ r.2 ∈ lines.map (fun l => l.1)

instance (lines : List (String × List (String × String))) : Decidable (ValidGraph lines) := by
  unfold ValidGraph; infer_instance

/-- Occupancy is consistent: the occupant of a registered city is a registered alien whose
city is that city, and the city of a registered alien is a registered city whose occupant is
that alien. -/
def OccupancyInv (w : World) : Prop :=
  (∀ n ∈ w.cities, ∀ a, (w.cityAt n).alien = some a →
    a ∈ w.aliens ∧ (w.alienAt a).city = some n) ∧
  (∀ a ∈ w.aliens, ∀ n, (w.alienAt a).city = some n →
    n ∈ w.cities ∧ (w.cityAt n).alien = some a)

instance (w : World) : Decidable (OccupancyInv w) := by
  unfold OccupancyInv; infer_instance

/-- A freshly built world: no city occupied, no alien placed. -/
def Fresh (w : World) : Prop :=
  (∀ n ∈ w.cities, (w.cityAt n).alien = none) ∧ (∀ a ∈ w.aliens, (w.alienAt a).city = none)

instance (w : World) : Decidable (Fresh w) := by
  unfold Fresh; infer_instance

/-- Every road of the city object `n` leads to a city of the registry. -/
def RoadsClosed (w : World) (n : String) : Prop :=
  ∀ r ∈ (w.cityAt n).roads, r.2 ∈ w.cities

instance (w : World) (n : String) : Decidable (RoadsClosed w n) := by
  unfold RoadsClosed; infer_instance

/-- The worlds that the pruning loop of `fight` for `city` can reach from `w`: only road maps
change, and each is either untouched or pruned of the roads to `city`. -/
def PrunedFrom (city : String) (w w' : World) : Prop :=
  w'.aliens = w.aliens ∧ w'.cities = w.cities ∧ w'.alienAt = w.alienAt ∧
  ∀ k, (w'.cityAt k).alien = (w.cityAt k).alien ∧
    ((w'.cityAt k).roads = (w.cityAt k).roads ∨
      (w'.cityAt k).roads = pruneRoads (w.cityAt k).roads city)

/-- The state in which the alien object `a` is about to be put into a city: occupancy is
consistent for every other alien, and no registered city has `a` as its occupant. -/
def PlaceReady (w : World) (a : Nat) : Prop :=
  (∀ n ∈ w.cities, ∀ x, (w.cityAt n).alien = some x →
    x ≠ a ∧ x ∈ w.aliens ∧ (w.alienAt x).city = some n) ∧
  (∀ x ∈ w.aliens, x ≠ a → ∀ n, (w.alienAt x).city = some n →
    n ∈ w.cities ∧ (w.cityAt n).alien = some x)

/-- The world after the calls `occupy(alien, city)` for the listed pairs, in order (a call
that panics is skipped). -/
def placeAll (w : World) (ps : List (Nat × String)) : World :=
  ps.foldl (fun w p => (occupy w ⟨p.1, 0, p.2⟩).getD w) w

/-- The balance of a run that started with `n0` aliens and `c0` cities: the aliens lost are
twice the cities lost. -/
def Conserved (n0 c0 : Nat) (w : World) : Prop :=
  w.aliens.length + 2 * c0 = n0 + 2 * w.cities.length ∧ w.cities.length ≤ c0

/-- What a fight that takes effect costs, from `w` to `w'`: the two distinct registered
aliens `a` and `b` and the registered city `city` are gone, every other alien and every other
city stays, so that exactly two aliens and exactly one city are lost. -/
def FightLoss (w w' : World) (a b : Nat) (city : String) : Prop :=
  a ≠ b ∧ a ∈ w.aliens ∧ b ∈ w.aliens ∧ city ∈ w.cities ∧
  a ∉ w'.aliens ∧ b ∉ w'.aliens ∧ city ∉ w'.cities ∧
  (∀ x ∈ w.aliens, x ≠ a → x ≠ b → x ∈ w'.aliens) ∧
  (∀ x ∈ w'.aliens, x ∈ w.aliens) ∧
  (∀ n ∈ w.cities, n ≠ city → n ∈ w'.cities) ∧
  (∀ n ∈ w'.cities, n ∈ w.cities) ∧
  w'.aliens.length + 2 = w.aliens.length ∧ w'.cities.length + 1 = w.cities.length

/-- A graph with a one-way road: `Foo` has a road to `Bar`, `Bar` has no road. -/
def oneWay : List (String × List (String × String)) :=
  [("Foo", [("north", "Bar")]), ("Bar", [])]

/-- A structurally valid graph with a one-way road into a city without roads: `Bar` has a
road to `Baz`, `Baz` has no road. -/
def deadEnd : List (String × List (String × String)) :=
  [("Foo", [("north", "Bar")]), ("Bar", [("north", "Baz"), ("south", "Foo")]), ("Baz", [])]

/-- The world after the placement loop on `deadEnd` with four aliens: aliens 0 and 1 meet in
`Baz` and destroy it, alien 2 lands in `Foo`, alien 3 in `Bar`. -/
def deadEndPlaced : World :=
  (initialPlacement (ParseWorld deadEnd 4) [0, 1, 2, 3] [2, 2, 0, 1]).getD (ParseWorld deadEnd 4)

/-- The world after three rounds of the placement loop on `deadEnd` with four aliens: aliens
0 and 1 meet in `Baz` and destroy it, alien 2 lands in `Bar`, alien 3 is not yet placed. -/
def deadEndHalfPlaced : World :=
  (initialPlacement (ParseWorld deadEnd 4) [0, 1, 2] [2, 2, 1]).getD (ParseWorld deadEnd 4)

/-- The world of `TestWorld_fight`: two aliens, alien 0 placed in `Foo`. -/
def fooTaken : World :=
  (occupy (ParseWorld testWorld 2) ⟨0, 0, "Foo"⟩).getD (ParseWorld testWorld 2)

/-- A message of an actor loop: a movement intent sent on `movements`, or the completion
signal sent on `done`. -/
inductive Message where
  | movement (hovercraft : Hovercraft)
  | done
  deriving DecidableEq

/-- The loop `for move := 0; move < moves; move++` of `Invade`, entered at iteration `move`
with `left` iterations to go, followed by the final `done <- true`.  `cancelled i` tells
whether `alien.ctx.Done()` is ready when iteration `i` runs its `select`, and `rand i` is the
random source of `rand.Intn(4)` in iteration `i`.  The result is the sequence of messages
sent. -/
def invadeLoop (id : Nat) (cancelled : Nat → Bool) (rand : Nat → Nat) :
    Nat → Nat → List Message
  | 0, _ => [Message.done]
  | left + 1, move =>
    if cancelled move then [Message.done]
    else
      Message.movement { alienId := id, direction := ((rand move % 4 : Nat) : Int),
                         initialCity := "" } ::
        invadeLoop id cancelled rand left (move + 1)

/-- The method `Alien.Invade` of the alien `id` with the budget `moves` (a Go `int`). -/
def Alien.Invade (id : Nat) (moves : Int) (cancelled : Nat → Bool) (rand : Nat → Nat) :
    List Message :=
  invadeLoop id cancelled rand moves.toNat 0

/-- Whether a message is the completion signal. -/
def Message.isDone : Message → Bool
  | Message.movement _ => false
  | Message.done => true

/-- The movement intents among the messages, in order. -/
def intents : List Message → List Hovercraft
  | [] => []
  | Message.movement h :: msgs => h :: intents msgs
  | Message.done :: msgs => intents msgs

/-- The coordinator loop of `StartWar`, `for activeAliens > 0 { select { ... } }`, receiving
the messages `msgs` in order: a movement intent is handed to `spin`, a completion signal
decrements the counter.  The result is the world, the counter and the messages not received;
with no message left and a positive counter the loop is waiting. -/
def coordinate (world : World) (activeAliens : Nat) :
    List Message → Option (World × Nat × List Message)
  | [] => some (world, activeAliens, [])
  | m :: msgs =>
    if activeAliens = 0 then some (world, activeAliens, m :: msgs)
    else
      match m with
      | Message.movement hovercraft =>
        match spin world hovercraft with
        | none => none
        | some w => coordinate w activeAliens msgs
      | Message.done => coordinate world (activeAliens - 1) msgs

/-- The messages `tagged`, each with the id of the actor that sent it, interleave the traces
of the actor loops started for the registered aliens of `w`: each actor runs `Invade(10000)`
under some history `cancelled id` of its cancellation signal and some random source
`rand id`. -/
def Interleaves (w : World) (tagged : List (Nat × Message))
    (cancelled : Nat → Nat → Bool) (rand : Nat → Nat → Nat) : Prop :=
  (∀ p ∈ tagged, p.1 ∈ w.aliens) ∧
  ∀ id ∈ w.aliens,
    (tagged.filter (fun p => p.1 = id)).map Prod.snd
      = Alien.Invade id 10000 (cancelled id) (rand id)

instance (w : World) (tagged : List (Nat × Message)) (cancelled : Nat → Nat → Bool)
    (rand : Nat → Nat → Nat) : Decidable (Interleaves w tagged cancelled rand) := by
  unfold Interleaves; infer_instance

/-- The world of the case `destroy destination` of `TestWorld_spin`: two aliens on the test
graph, alien 0 placed in `Foo`, alien 1 in `Bar`. -/
def fooBarTaken : World :=
  (initialPlacement (ParseWorld testWorld 2) [0, 1] [0, 1]).getD (ParseWorld testWorld 2)

/-- A world with a single city, named by the empty string. -/
def namelessCity : List (String × List (String × String)) := [("", [])]

/-- The road lists of the registered cities are maps: no label occurs twice. -/
def RoadMaps (w : World) : Prop :=
  ∀ n ∈ w.cities, ((w.cityAt n).roads.map Prod.fst).Nodup

/-- Every road of a registered city leads to a registered city. -/
def Closed (w : World) : Prop :=
  ∀ n ∈ w.cities, RoadsClosed w n

instance (w : World) : Decidable (Closed w) := by
  unfold Closed; infer_instance

/-- Every road of a registered city is labelled with one of the four directions. -/
def Labelled (w : World) : Prop :=
  ∀ n ∈ w.cities, ∀ r ∈ (w.cityAt n).roads, r.1 ∈ ["north", "south", "east", "west"]

/-- Every road of a registered city has a return road. -/
def Reciprocal (w : World) : Prop :=
  ∀ n ∈ w.cities, ∀ r ∈ (w.cityAt n).roads, ∃ r' ∈ (w.cityAt r.2).roads, r'.2 = n

/-- A closed graph with direction labels in which every road has a return road. -/
def GraphOk (w : World) : Prop :=
  RoadMaps w ∧ Closed w ∧ Labelled w ∧ Reciprocal w

instance (w : World) : Decidable (GraphOk w) := by
  unfold GraphOk RoadMaps Closed RoadsClosed Labelled Reciprocal; infer_instance

/-- Every registered alien has a city. -/
def Placed (w : World) : Prop :=
  ∀ a ∈ w.aliens, (w.alienAt a).city ≠ none

instance (w : World) : Decidable (Placed w) := by
  unfold Placed; infer_instance

/-! ## Auxiliary facts -/

theorem eq_some_getD {α : Type} {o : Option α} (h : o.isSome = true) (d : α) :
    o = some (o.getD d) := by
  cases o with
  | none => simp at h
  | some x => rfl

theorem mem_of_lookup {l : List (String × String)} {k v : String}
    (h : l.lookup k = some v) : (k, v) ∈ l := by
  induction l with
  | nil => simp at h
  | cons x xs ih =>
    obtain ⟨a, b⟩ := x
    simp only [List.lookup_cons] at h
    split at h
    · rename_i heq
      simp at heq h
      simp [heq, h]
    · simp [ih h]

@[simp]
theorem cancel_aliens (w : World) (a : Nat) : (w.cancel a).aliens = w.aliens := rfl
@[simp]
theorem cancel_cities (w : World) (a : Nat) : (w.cancel a).cities = w.cities := rfl
@[simp]
theorem cancel_cityAt (w : World) (a : Nat) : (w.cancel a).cityAt = w.cityAt := rfl
@[simp]
theorem cancel_city (w : World) (a k : Nat) :
    ((w.cancel a).alienAt k).city = (w.alienAt k).city := by
  unfold World.cancel; dsimp only; split <;> rfl
@[simp]
theorem cancel_cancelled (w : World) (a k : Nat) :
    ((w.cancel a).alienAt k).cancelled = if k = a then true else (w.alienAt k).cancelled := by
  unfold World.cancel; dsimp only; split <;> rfl

@[simp]
theorem setAlienCity_aliens (w : World) (a : Nat) (c : Option String) :
    (w.setAlienCity a c).aliens = w.aliens := rfl
@[simp]
theorem setAlienCity_cities (w : World) (a : Nat) (c : Option String) :
    (w.setAlienCity a c).cities = w.cities := rfl
@[simp]
theorem setAlienCity_cityAt (w : World) (a : Nat) (c : Option String) :
    (w.setAlienCity a c).cityAt = w.cityAt := rfl
@[simp]
theorem setAlienCity_city (w : World) (a : Nat) (c : Option String) (k : Nat) :
    ((w.setAlienCity a c).alienAt k).city = if k = a then c else (w.alienAt k).city := by
  unfold World.setAlienCity; dsimp only; split <;> rfl
@[simp]
theorem setAlienCity_cancelled (w : World) (a : Nat) (c : Option String) (k : Nat) :
    ((w.setAlienCity a c).alienAt k).cancelled = (w.alienAt k).cancelled := by
  unfold World.setAlienCity; dsimp only; split <;> rfl

@[simp]
theorem setCityAlien_aliens (w : World) (n : String) (a : Option Nat) :
    (w.setCityAlien n a).aliens = w.aliens := rfl
@[simp]
theorem setCityAlien_cities (w : World) (n : String) (a : Option Nat) :
    (w.setCityAlien n a).cities = w.cities := rfl
@[simp]
theorem setCityAlien_alienAt (w : World) (n : String) (a : Option Nat) :
    (w.setCityAlien n a).alienAt = w.alienAt := rfl
@[simp]
theorem setCityAlien_alien (w : World) (n : String) (a : Option Nat) (k : String) :
    ((w.setCityAlien n a).cityAt k).alien = if k = n then a else (w.cityAt k).alien := by
  unfold World.setCityAlien; dsimp only; split <;> rfl
@[simp]
theorem setCityAlien_roads (w : World) (n : String) (a : Option Nat) (k : String) :
    ((w.setCityAlien n a).cityAt k).roads = (w.cityAt k).roads := by
  unfold World.setCityAlien; dsimp only; split <;> rfl

@[simp]
theorem setRoads_aliens (w : World) (n : String) (r : List (String × String)) :
    (w.setRoads n r).aliens = w.aliens := rfl
@[simp]
theorem setRoads_cities (w : World) (n : String) (r : List (String × String)) :
    (w.setRoads n r).cities = w.cities := rfl
@[simp]
theorem setRoads_alienAt (w : World) (n : String) (r : List (String × String)) :
    (w.setRoads n r).alienAt = w.alienAt := rfl
@[simp]
theorem setRoads_alien (w : World) (n : String) (r : List (String × String))
    (k : String) : ((w.setRoads n r).cityAt k).alien = (w.cityAt k).alien := by
  unfold World.setRoads; dsimp only; split <;> rfl
@[simp]
theorem setRoads_roads (w : World) (n : String) (r : List (String × String))
    (k : String) : ((w.setRoads n r).cityAt k).roads = if k = n then r else (w.cityAt k).roads := by
  unfold World.setRoads; dsimp only; split <;> rfl

@[simp]
theorem deleteAlien_aliens (w : World) (a : Nat) :
    (w.deleteAlien a).aliens = w.aliens.filter (fun k => k != a) := rfl
@[simp]
theorem deleteAlien_cities (w : World) (a : Nat) :
    (w.deleteAlien a).cities = w.cities := rfl
@[simp]
theorem deleteAlien_alienAt (w : World) (a : Nat) :
    (w.deleteAlien a).alienAt = w.alienAt := rfl
@[simp]
theorem deleteAlien_cityAt (w : World) (a : Nat) :
    (w.deleteAlien a).cityAt = w.cityAt := rfl

@[simp]
theorem deleteCity_aliens (w : World) (n : String) :
    (w.deleteCity n).aliens = w.aliens := rfl
@[simp]
theorem deleteCity_cities (w : World) (n : String) :
    (w.deleteCity n).cities = w.cities.filter (fun k => k != n) := rfl
@[simp]
theorem deleteCity_alienAt (w : World) (n : String) :
    (w.deleteCity n).alienAt = w.alienAt := rfl
@[simp]
theorem deleteCity_cityAt (w : World) (n : String) :
    (w.deleteCity n).cityAt = w.cityAt := rfl

theorem fight_of_not_mem {world : World} {city : String} (alien : Option Nat)
    (h : city ∉ world.cities) : fight world city alien = none := by
  simp [fight, h]

theorem pruneRoads_idem (roads : List (String × String)) (city : String) :
    pruneRoads (pruneRoads roads city) city = pruneRoads roads city := by
  simp [pruneRoads, List.filter_filter]

theorem prunedFrom_refl (city : String) (w : World) : PrunedFrom city w w :=
  ⟨rfl, rfl, rfl, fun _ => ⟨rfl, Or.inl rfl⟩⟩

theorem prunedFrom_trans {city : String} {w1 w2 w3 : World}
    (h12 : PrunedFrom city w1 w2) (h23 : PrunedFrom city w2 w3) : PrunedFrom city w1 w3 := by
  obtain ⟨a1, c1, o1, k1⟩ := h12
  obtain ⟨a2, c2, o2, k2⟩ := h23
  refine ⟨a2.trans a1, c2.trans c1, o2.trans o1, fun k => ⟨(k2 k).1.trans (k1 k).1, ?_⟩⟩
  rcases (k1 k).2 with h1 | h1 <;> rcases (k2 k).2 with h2 | h2
  · exact Or.inl (h2.trans h1)
  · exact Or.inr (by rw [h2, h1])
  · exact Or.inr (h2.trans h1)
  · exact Or.inr (by rw [h2, h1, pruneRoads_idem])

theorem pruneStep_prunedFrom {city : String} {w w' : World} {d : Int}
    (h : pruneStep city (some w) d = some w') : PrunedFrom city w w' := by
  unfold pruneStep at h
  simp only at h
  split at h
  · cases h; exact prunedFrom_refl city w
  · rename_i dest _
    split at h
    · cases h
      refine ⟨rfl, rfl, rfl, fun k => ?_⟩
      by_cases hk : k = dest
      · subst hk; simp [World.setRoads]
      · simp [World.setRoads, hk]
    · cases h

theorem foldl_pruneStep_none (city : String) (l : List Int) :
    l.foldl (pruneStep city) none = none := by
  induction l with
  | nil => rfl
  | cons d l ih => simpa [List.foldl, pruneStep] using ih

theorem foldl_pruneStep_prunedFrom {city : String} (l : List Int) {w w' : World}
    (h : l.foldl (pruneStep city) (some w) = some w') : PrunedFrom city w w' := by
  induction l generalizing w with
  | nil => simp at h; subst h; exact prunedFrom_refl city w
  | cons d l ih =>
    simp only [List.foldl] at h
    cases hs : pruneStep city (some w) d with
    | none => rw [hs, foldl_pruneStep_none] at h; cases h
    | some w1 =>
      rw [hs] at h
      exact prunedFrom_trans (pruneStep_prunedFrom hs) (ih h)

theorem foldl_pruneStep_isSome {city : String} (l : List Int) {w : World}
    (h : RoadsClosed w city) : ∃ w', l.foldl (pruneStep city) (some w) = some w' := by
  induction l generalizing w with
  | nil => exact ⟨w, rfl⟩
  | cons d l ih =>
    simp only [List.foldl]
    have hstep : ∃ w1, pruneStep city (some w) d = some w1 ∧ RoadsClosed w1 city := by
      unfold pruneStep
      simp only
      cases hl : (w.cityAt city).roads.lookup (Direction.String d) with
      | none => exact ⟨w, rfl, h⟩
      | some dest =>
        have hd : dest ∈ w.cities := h _ (mem_of_lookup hl)
        refine ⟨w.setRoads dest (pruneRoads (w.cityAt dest).roads city), by simp [hd], ?_⟩
        intro r hr
        simp only [World.setRoads] at hr ⊢
        split at hr
        · simp only [pruneRoads] at hr
          rename_i he
          rw [← he] at hr
          exact h r (List.mem_of_mem_filter hr)
        · exact h r hr
    obtain ⟨w1, h1, hc1⟩ := hstep
    rw [h1]
    exact ih hc1

/-- What a fight that finds an occupant does, when it completes. -/
theorem fight_some {world : World} {city : String} {alien : Option Nat} {b : Nat} {w' : World}
    (hb : (world.cityAt city).alien = some b) (h : fight world city alien = some w') :
    city ∈ world.cities ∧ ∃ a w3, alien = some a ∧
      PrunedFrom city ((((world.cancel a).cancel b).deleteAlien a).deleteAlien b) w3 ∧
      w' = w3.deleteCity city := by
  unfold fight at h
  split at h
  · rename_i hc
    refine ⟨hc, ?_⟩
    rw [hb] at h
    simp only at h
    cases alien with
    | none => simp at h
    | some a =>
      simp only at h
      split at h
      · cases h
      · rename_i w3 hf
        cases h
        exact ⟨a, w3, rfl, foldl_pruneStep_prunedFrom _ hf, rfl⟩
  · cases h

/-- A fight that finds an occupant completes when the roads of the city are closed. -/
theorem fight_isSome {world : World} {city : String} (a : Nat) {b : Nat}
    (hc : city ∈ world.cities) (hb : (world.cityAt city).alien = some b)
    (hr : RoadsClosed world city) : ∃ w', fight world city (some a) = some w' := by
  have hcl : RoadsClosed ((((world.cancel a).cancel b).deleteAlien a).deleteAlien b) city := hr
  obtain ⟨w3, h3⟩ := foldl_pruneStep_isSome [0, 1, 2, 3] hcl
  refine ⟨w3.deleteCity city, ?_⟩
  unfold fight
  simp only [hc, if_true, hb]
  rw [h3]

/-- The effect of a completed fight that found the occupant `b`, field by field. -/
theorem fight_effect {world : World} {city : String} {alien : Option Nat} {b : Nat}
    {w' : World} (hb : (world.cityAt city).alien = some b)
    (h : fight world city alien = some w') :
    city ∈ world.cities ∧ ∃ a, alien = some a ∧
      w'.aliens = (world.aliens.filter (fun k => k != a)).filter (fun k => k != b) ∧
      w'.cities = world.cities.filter (fun k => k != city) ∧
      (∀ k, (w'.alienAt k).city = (world.alienAt k).city) ∧
      (∀ k, (w'.alienAt k).cancelled =
        if k = b then true else if k = a then true else (world.alienAt k).cancelled) ∧
      (∀ k, (w'.cityAt k).alien = (world.cityAt k).alien) ∧
      (∀ k, (w'.cityAt k).roads = (world.cityAt k).roads ∨
        (w'.cityAt k).roads = pruneRoads (world.cityAt k).roads city) := by
  obtain ⟨hc, a, w3, ha, ⟨p1, p2, p3, p4⟩, hw⟩ := fight_some hb h
  subst hw
  refine ⟨hc, a, ha, ?_, ?_, ?_, ?_, ?_, ?_⟩
  · simp [p1]
  · simp [p2]
  · intro k; simp [p3]
  · intro k; simp [p3]
  · intro k; simpa using (p4 k).1
  · intro k; simpa using (p4 k).2

/-- The tail of `spin` after `from.alien = nil` is the body of `occupy`. -/
theorem spin_eq_occupy {world : World} {hovercraft : Hovercraft} {frm toCity : String}
    (hreg : hovercraft.alienId ∈ world.aliens)
    (hcity : (world.alienAt hovercraft.alienId).city = some frm)
    (hfrm : frm ∈ world.cities)
    (hroad : (world.cityAt frm).roads.lookup (Direction.String hovercraft.direction)
      = some toCity) :
    spin world hovercraft =
      occupy (world.setCityAlien frm none) ⟨hovercraft.alienId, hovercraft.direction, toCity⟩ := by
  have hroads : (world.cityAt frm).roads ≠ [] := by
    intro h
    rw [h] at hroad
    simp at hroad
  simp only [spin, occupy, World.alienPtr, hreg, if_true, hcity, hroads, hfrm, hroad,
    List.length_eq_zero, if_false, setCityAlien_aliens]

/-- The two ways in which `occupy` completes. -/
theorem occupy_cases {world : World} {hovercraft : Hovercraft} {w' : World}
    (h : occupy world hovercraft = some w') :
    hovercraft.initialCity ∈ world.cities ∧ hovercraft.alienId ∈ world.aliens ∧
      (((world.cityAt hovercraft.initialCity).alien = none ∧
          w' = (world.setAlienCity hovercraft.alienId (some hovercraft.initialCity)).setCityAlien
            hovercraft.initialCity (some hovercraft.alienId)) ∨
        ∃ b, (world.cityAt hovercraft.initialCity).alien = some b ∧
          fight world hovercraft.initialCity (some hovercraft.alienId) = some w') := by
  unfold occupy at h
  split at h
  · rename_i hc
    refine ⟨hc, ?_⟩
    by_cases hreg : hovercraft.alienId ∈ world.aliens
    · refine ⟨hreg, ?_⟩
      simp only [World.alienPtr, hreg, if_true] at h
      cases hal : (world.cityAt hovercraft.initialCity).alien with
      | none =>
        rw [hal] at h
        simp only [Option.some.injEq] at h
        exact Or.inl ⟨rfl, h.symm⟩
      | some b =>
        rw [hal] at h
        exact Or.inr ⟨b, rfl, h⟩
    · exfalso
      simp only [World.alienPtr, hreg, if_false] at h
      cases hal : (world.cityAt hovercraft.initialCity).alien with
      | none => rw [hal] at h; cases h
      | some b =>
        rw [hal] at h
        simp only [fight, hc, if_true, hal] at h
        cases h
  · cases h

/-- Placing an alien keeps occupancy consistent, leaves the city of every other alien object
alone and adds no alien to the registry. -/
theorem occupy_inv (world : World) (hovercraft : Hovercraft) {w' : World}
    (hready : PlaceReady world hovercraft.alienId)
    (h : occupy world hovercraft = some w') :
    OccupancyInv w' ∧
      (∀ x, x ≠ hovercraft.alienId → (w'.alienAt x).city = (world.alienAt x).city) ∧
      (∀ x ∈ w'.aliens, x ∈ world.aliens) := by
  obtain ⟨hc, hreg, hcase⟩ := occupy_cases h
  obtain ⟨r1, r2⟩ := hready
  rcases hcase with ⟨hnone, rfl⟩ | ⟨b, hb, hf⟩
  · refine ⟨⟨?_, ?_⟩, ?_, ?_⟩
    · intro n hn x hx
      simp only [setCityAlien_cities, setAlienCity_cities, setCityAlien_alien,
        setAlienCity_cityAt, setCityAlien_aliens, setAlienCity_aliens, setCityAlien_alienAt,
        setAlienCity_city] at hn hx ⊢
      by_cases hnc : n = hovercraft.initialCity
      · simp only [hnc, if_true, Option.some.injEq] at hx
        subst hx
        simp [hreg, hnc]
      · simp only [hnc, if_false] at hx
        obtain ⟨h1, h2, h3⟩ := r1 n hn x hx
        simp [h1, h2, h3]
    · intro x hx n hxn
      simp only [setCityAlien_cities, setAlienCity_cities, setCityAlien_alien,
        setAlienCity_cityAt, setCityAlien_aliens, setAlienCity_aliens, setCityAlien_alienAt,
        setAlienCity_city] at hx hxn ⊢
      by_cases hxa : x = hovercraft.alienId
      · simp only [hxa, if_true, Option.some.injEq] at hxn
        subst hxn
        simp [hc, hxa]
      · simp only [hxa, if_false] at hxn
        obtain ⟨h1, h2⟩ := r2 x hx hxa n hxn
        have hnc : n ≠ hovercraft.initialCity := by
          intro hh
          rw [hh, hnone] at h2
          cases h2
        simp [h1, h2, hnc]
    · intro x hx
      simp [hx]
    · intro x hx
      simpa using hx
  · obtain ⟨_, a, ha, e1, e2, e3, _, e5, _⟩ := fight_effect hb hf
    cases ha
    obtain ⟨hba, hbreg, hbcity⟩ := r1 _ hc b hb
    refine ⟨⟨?_, ?_⟩, ?_, ?_⟩
    · intro n hn x hx
      rw [e2] at hn
      rw [e5] at hx
      rw [e1, e3]
      obtain ⟨hn1, hn2⟩ := List.mem_filter.mp hn
      have hnc : n ≠ hovercraft.initialCity := by simpa using hn2
      obtain ⟨h1, h2, h3⟩ := r1 n hn1 x hx
      have hxb : x ≠ b := by
        intro hh
        rw [hh, hbcity] at h3
        exact hnc (Option.some.inj h3).symm
      exact ⟨by simp [h1, h2, hxb], h3⟩
    · intro x hx n hxn
      rw [e1] at hx
      rw [e3] at hxn
      rw [e2, e5]
      simp only [List.mem_filter, bne_iff_ne, ne_eq] at hx
      obtain ⟨⟨hx1, hxa⟩, hxb⟩ := hx
      obtain ⟨h1, h2⟩ := r2 x hx1 hxa n hxn
      have hnc : n ≠ hovercraft.initialCity := by
        intro hh
        rw [hh, hb] at h2
        exact hxb (Option.some.inj h2).symm
      exact ⟨by simp [h1, hnc], h2⟩
    · intro x _
      exact e3 x
    · intro x hx
      rw [e1] at hx
      simp only [List.mem_filter] at hx
      exact hx.1.1

/-- Consistent occupancy makes an unplaced alien ready to be placed. -/
theorem placeReady_of_unplaced {w : World} {a : Nat} (hinv : OccupancyInv w)
    (ha : a ∈ w.aliens → (w.alienAt a).city = none) : PlaceReady w a := by
  refine ⟨fun n hn x hx => ?_, fun x hx _ n hxn => hinv.2 x hx n hxn⟩
  obtain ⟨h1, h2⟩ := hinv.1 n hn x hx
  refine ⟨?_, h1, h2⟩
  intro hxa
  subst hxa
  rw [ha h1] at h2
  cases h2

/-- Consistent occupancy makes an alien ready to be placed once its city has let it go. -/
theorem placeReady_of_cleared {w : World} {a : Nat} {frm : String} (hinv : OccupancyInv w)
    (hreg : a ∈ w.aliens) (ha : (w.alienAt a).city = some frm) :
    PlaceReady (w.setCityAlien frm none) a := by
  refine ⟨fun n hn x hx => ?_, fun x hx hxa n hxn => ?_⟩
  · simp only [setCityAlien_cities, setCityAlien_alien, setCityAlien_aliens,
      setCityAlien_alienAt] at hn hx ⊢
    by_cases hnf : n = frm
    · simp [hnf] at hx
    · simp only [hnf, if_false] at hx
      obtain ⟨h1, h2⟩ := hinv.1 n hn x hx
      refine ⟨?_, h1, h2⟩
      intro hxa
      subst hxa
      rw [ha] at h2
      exact hnf (Option.some.inj h2).symm
  · simp only [setCityAlien_cities, setCityAlien_alien, setCityAlien_aliens,
      setCityAlien_alienAt] at hx hxn ⊢
    obtain ⟨h1, h2⟩ := hinv.2 x hx n hxn
    have hnf : n ≠ frm := by
      intro hh
      subst hh
      exact hxa (Option.some.inj ((hinv.2 a hreg n ha).2.symm.trans h2)).symm
    simp [h1, h2, hnf]

/-- The ways in which `spin` completes. -/
theorem spin_cases {world : World} {hovercraft : Hovercraft} {w' : World}
    (h : spin world hovercraft = some w') :
    (hovercraft.alienId ∉ world.aliens ∧ w' = world) ∨
    (hovercraft.alienId ∈ world.aliens ∧ ∃ frm,
      (world.alienAt hovercraft.alienId).city = some frm ∧
      (((world.cityAt frm).roads = [] ∧ w' = world.cancel hovercraft.alienId) ∨
       ((world.cityAt frm).roads ≠ [] ∧ frm ∈ world.cities ∧
        (((world.cityAt frm).roads.lookup (Direction.String hovercraft.direction) = none ∧
            w' = world) ∨
          ∃ toCity,
            (world.cityAt frm).roads.lookup (Direction.String hovercraft.direction)
              = some toCity ∧
            occupy (world.setCityAlien frm none)
              ⟨hovercraft.alienId, hovercraft.direction, toCity⟩ = some w')))) := by
  by_cases hreg : hovercraft.alienId ∈ world.aliens
  · right
    refine ⟨hreg, ?_⟩
    cases hcity : (world.alienAt hovercraft.alienId).city with
    | none => simp [spin, World.alienPtr, hreg, hcity] at h
    | some frm =>
      refine ⟨frm, rfl, ?_⟩
      by_cases hroads : (world.cityAt frm).roads = []
      · left
        simp [spin, World.alienPtr, hreg, hcity, hroads] at h
        exact ⟨hroads, h.symm⟩
      · right
        by_cases hfrm : frm ∈ world.cities
        · refine ⟨hroads, hfrm, ?_⟩
          cases hroad : (world.cityAt frm).roads.lookup (Direction.String hovercraft.direction)
            with
          | none =>
            left
            simp [spin, World.alienPtr, hreg, hcity, hroads, hfrm, hroad] at h
            exact ⟨rfl, h.symm⟩
          | some toCity =>
            right
            rw [spin_eq_occupy hreg hcity hfrm hroad] at h
            exact ⟨toCity, rfl, h⟩
        · simp [spin, World.alienPtr, hreg, hcity, hroads, hfrm] at h
  · left
    simp [spin, World.alienPtr, hreg] at h
    exact ⟨hreg, h.symm⟩

/-- A completed `spin` keeps occupancy consistent and adds no alien to the registry. -/
theorem spin_inv {world : World} {hovercraft : Hovercraft} {w' : World}
    (hinv : OccupancyInv world) (h : spin world hovercraft = some w') :
    OccupancyInv w' := by
  rcases spin_cases h with ⟨_, rfl⟩ | ⟨hreg, frm, hcity, hc⟩
  · exact hinv
  · rcases hc with ⟨_, rfl⟩ | ⟨_, _, hc⟩
    · refine ⟨fun n hn x hx => ?_, fun x hx n hxn => ?_⟩
      · simpa using hinv.1 n hn x hx
      · simp only [cancel_aliens, cancel_city] at hx hxn
        simpa using hinv.2 x hx n hxn
    · rcases hc with ⟨_, rfl⟩ | ⟨toCity, _, hocc⟩
      · exact hinv
      · exact (occupy_inv (world.setCityAlien frm none)
          ⟨hovercraft.alienId, hovercraft.direction, toCity⟩
          (placeReady_of_cleared hinv hreg hcity) hocc).1

theorem length_filter_ne {α : Type} [DecidableEq α] {l : List α} (hnd : l.Nodup) {x : α}
    (hx : x ∈ l) : (l.filter (fun k => k != x)).length + 1 = l.length := by
  induction l with
  | nil => simp at hx
  | cons y ys ih =>
    obtain ⟨hy, hys⟩ := List.nodup_cons.mp hnd
    by_cases hyx : y = x
    · subst hyx
      have : ys.filter (fun k => k != y) = ys := by
        apply List.filter_eq_self.mpr
        intro z hz
        have : z ≠ y := fun e => hy (e ▸ hz)
        simpa using this
      simp [this]
    · have hx' : x ∈ ys := by
        rcases List.mem_cons.mp hx with e | e
        · exact absurd e.symm hyx
        · exact e
      simp [hyx, ih hys hx']

/-- Placing an alien in a world with unique keys: keys stay unique, and either nothing is
lost or two aliens and one city are. -/
theorem occupy_count (world : World) (hovercraft : Hovercraft) {w' : World}
    (hready : PlaceReady world hovercraft.alienId)
    (hnda : world.aliens.Nodup) (hndc : world.cities.Nodup)
    (h : occupy world hovercraft = some w') :
    w'.aliens.Nodup ∧ w'.cities.Nodup ∧
      ((w'.aliens.length = world.aliens.length ∧ w'.cities.length = world.cities.length) ∨
       (w'.aliens.length + 2 = world.aliens.length ∧
        w'.cities.length + 1 = world.cities.length)) := by
  obtain ⟨hc, hreg, hcase⟩ := occupy_cases h
  rcases hcase with ⟨_, rfl⟩ | ⟨b, hb, hf⟩
  · exact ⟨hnda, hndc, Or.inl ⟨rfl, rfl⟩⟩
  · obtain ⟨_, a, ha, e1, e2, _⟩ := fight_effect hb hf
    cases ha
    obtain ⟨hba, hbreg, _⟩ := hready.1 _ hc b hb
    have hb' : b ∈ world.aliens.filter (fun k => k != hovercraft.alienId) := by
      simp [hbreg, hba]
    have l1 := length_filter_ne hnda hreg
    have l2 := length_filter_ne (hnda.filter _) hb'
    have l3 := length_filter_ne hndc hc
    rw [e1, e2]
    refine ⟨(hnda.filter _).filter _, hndc.filter _, Or.inr ⟨?_, ?_⟩⟩ <;> omega

/-- A completed `spin` in a consistent world with unique keys: keys stay unique, and either
nothing is lost or two aliens and one city are. -/
theorem spin_count {world : World} {hovercraft : Hovercraft} {w' : World}
    (hinv : OccupancyInv world)
    (hnda : world.aliens.Nodup) (hndc : world.cities.Nodup)
    (h : spin world hovercraft = some w') :
    w'.aliens.Nodup ∧ w'.cities.Nodup ∧
      ((w'.aliens.length = world.aliens.length ∧ w'.cities.length = world.cities.length) ∨
       (w'.aliens.length + 2 = world.aliens.length ∧
        w'.cities.length + 1 = world.cities.length)) := by
  rcases spin_cases h with ⟨_, rfl⟩ | ⟨hreg, frm, hcity, hc⟩
  · exact ⟨hnda, hndc, Or.inl ⟨rfl, rfl⟩⟩
  · rcases hc with ⟨_, rfl⟩ | ⟨_, _, hc⟩
    · exact ⟨hnda, hndc, Or.inl ⟨rfl, rfl⟩⟩
    · rcases hc with ⟨_, rfl⟩ | ⟨toCity, _, hocc⟩
      · exact ⟨hnda, hndc, Or.inl ⟨rfl, rfl⟩⟩
      · exact occupy_count (world.setCityAlien frm none)
          ⟨hovercraft.alienId, hovercraft.direction, toCity⟩
          (placeReady_of_cleared hinv hreg hcity) hnda hndc hocc

/-- A completed fight between two distinct registered aliens, in a world with unique keys,
costs exactly these two aliens and the city. -/
theorem fight_loss {world : World} {city : String} {a b : Nat} {w' : World}
    (hnda : world.aliens.Nodup) (hndc : world.cities.Nodup)
    (ha : a ∈ world.aliens) (hbreg : b ∈ world.aliens) (hab : a ≠ b)
    (hb : (world.cityAt city).alien = some b)
    (h : fight world city (some a) = some w') : FightLoss world w' a b city := by
  obtain ⟨hc, a', ha', e1, e2, _⟩ := fight_effect hb h
  cases ha'
  have hb' : b ∈ world.aliens.filter (fun k => k != a) := by
    simp [hbreg, Ne.symm hab]
  have l1 := length_filter_ne hnda ha
  have l2 := length_filter_ne (hnda.filter _) hb'
  have l3 := length_filter_ne hndc hc
  refine ⟨hab, ha, hbreg, hc, ?_, ?_, ?_, ?_, ?_, ?_, ?_, ?_, ?_⟩
  · rw [e1]; simp
  · rw [e1]; simp
  · rw [e2]; simp
  · intro x hx hxa hxb
    rw [e1]; simp [hx, hxa, hxb]
  · intro x hx
    rw [e1] at hx
    exact (List.mem_filter.mp (List.mem_filter.mp hx).1).1
  · intro n hn hne
    rw [e2]; simp [hn, hne]
  · intro n hn
    rw [e2] at hn
    exact (List.mem_filter.mp hn).1
  · rw [e1]; omega
  · rw [e2]; omega

/-- Placing an unplaced registered alien in an occupied city, when it completes, is a fight
that takes effect. -/
theorem occupy_loss {world : World} {id b : Nat} {c : String} {w' : World}
    (hinv : OccupancyInv world) (hnda : world.aliens.Nodup) (hndc : world.cities.Nodup)
    (hreg : id ∈ world.aliens) (hun : (world.alienAt id).city = none)
    (hb : (world.cityAt c).alien = some b)
    (h : occupy world ⟨id, 0, c⟩ = some w') : FightLoss world w' id b c := by
  obtain ⟨hc, _, hcase⟩ := occupy_cases h
  rcases hcase with ⟨hnone, _⟩ | ⟨b', hb', hf⟩
  · simp only at hnone
    rw [hb] at hnone
    cases hnone
  · simp only at hb' hf hc
    rw [hb] at hb'
    cases hb'
    obtain ⟨hbreg, hbcity⟩ := hinv.1 c hc b hb
    have hne : id ≠ b := by
      intro e
      rw [← e, hun] at hbcity
      cases hbcity
    exact fight_loss hnda hndc hreg hbreg hne hb hf

/-- A move into an occupied city other than the one left, when `spin` completes, is a fight
that takes effect. -/
theorem spin_loss {world : World} {hovercraft : Hovercraft} {frm toCity : String} {b : Nat}
    {w' : World}
    (hinv : OccupancyInv world) (hnda : world.aliens.Nodup) (hndc : world.cities.Nodup)
    (hreg : hovercraft.alienId ∈ world.aliens)
    (hcity : (world.alienAt hovercraft.alienId).city = some frm)
    (hroad : (world.cityAt frm).roads.lookup (Direction.String hovercraft.direction)
      = some toCity)
    (hne : toCity ≠ frm) (hb : (world.cityAt toCity).alien = some b)
    (h : spin world hovercraft = some w') :
    FightLoss world w' hovercraft.alienId b toCity := by
  obtain ⟨hfrm, _⟩ := hinv.2 _ hreg _ hcity
  rw [spin_eq_occupy hreg hcity hfrm hroad] at h
  obtain ⟨hc, _, hcase⟩ := occupy_cases h
  have hb1 : ((world.setCityAlien frm none).cityAt toCity).alien = some b := by
    simp [hne, hb]
  rcases hcase with ⟨hnone, _⟩ | ⟨b', hb', hf⟩
  · simp only at hnone
    rw [hb1] at hnone
    cases hnone
  · simp only at hb' hf hc
    rw [hb1] at hb'
    cases hb'
    obtain ⟨hbreg, hbcity⟩ := hinv.1 toCity (by simpa using hc) b hb
    have hab : hovercraft.alienId ≠ b := by
      intro e
      rw [← e, hcity] at hbcity
      exact hne (Option.some.inj hbcity).symm
    exact @fight_loss (world.setCityAlien frm none) toCity hovercraft.alienId b w'
      hnda hndc hreg hbreg hab hb1 hf

theorem conserved_step {n0 c0 : Nat} {w w' : World} (hc : Conserved n0 c0 w)
    (h : (w'.aliens.length = w.aliens.length ∧ w'.cities.length = w.cities.length) ∨
      (w'.aliens.length + 2 = w.aliens.length ∧ w'.cities.length + 1 = w.cities.length)) :
    Conserved n0 c0 w' := by
  obtain ⟨c1, c2⟩ := hc
  rcases h with ⟨h1, h2⟩ | ⟨h1, h2⟩ <;> constructor <;> omega

/-- The coordinator loop keeps occupancy consistent. -/
theorem spinAll_inv (msgs : List Hovercraft) {world w' : World}
    (hinv : OccupancyInv world) (h : spinAll world msgs = some w') : OccupancyInv w' := by
  induction msgs generalizing world with
  | nil => simp [spinAll] at h; subst h; exact hinv
  | cons m msgs ih =>
    simp only [spinAll] at h
    cases hs : spin world m with
    | none => rw [hs] at h; cases h
    | some w1 =>
      rw [hs] at h
      exact ih (spin_inv hinv hs) h

/-- The coordinator loop keeps the keys unique and the balance of aliens and cities. -/
theorem spinAll_count (msgs : List Hovercraft) {n0 c0 : Nat} {world w' : World}
    (hinv : OccupancyInv world) (hnda : world.aliens.Nodup) (hndc : world.cities.Nodup)
    (hcons : Conserved n0 c0 world) (h : spinAll world msgs = some w') :
    w'.aliens.Nodup ∧ w'.cities.Nodup ∧ Conserved n0 c0 w' := by
  induction msgs generalizing world with
  | nil => simp [spinAll] at h; subst h; exact ⟨hnda, hndc, hcons⟩
  | cons m msgs ih =>
    simp only [spinAll] at h
    cases hs : spin world m with
    | none => rw [hs] at h; cases h
    | some w1 =>
      rw [hs] at h
      obtain ⟨a1, a2, a3⟩ := spin_count hinv hnda hndc hs
      exact ih (spin_inv hinv hs) a1 a2 (conserved_step hcons a3) h

/-- The placement loop keeps occupancy consistent, provided the aliens still to be visited
are unplaced and none is visited twice. -/
theorem initialPlacement_inv (order : List Nat) {rs : List Nat} {world w' : World}
    (hinv : OccupancyInv world) (hnd : order.Nodup)
    (hun : ∀ x ∈ order, x ∈ world.aliens → (world.alienAt x).city = none)
    (h : initialPlacement world order rs = some w') : OccupancyInv w' := by
  induction order generalizing world rs with
  | nil => simp [initialPlacement] at h; subst h; exact hinv
  | cons id order ih =>
    obtain ⟨hid, hnd'⟩ := List.nodup_cons.mp hnd
    simp only [initialPlacement] at h
    split at h
    · split at h
      · cases h; exact hinv
      · cases ho : occupy world ⟨id, 0, chooseCity world rs.headI⟩ with
        | none => rw [ho] at h; cases h
        | some w1 =>
          rw [ho] at h
          have hready : PlaceReady world id :=
            placeReady_of_unplaced hinv (hun id (List.mem_cons_self _ _))
          obtain ⟨i1, i2, i3⟩ := occupy_inv world ⟨id, 0, _⟩ hready ho
          refine ih i1 hnd' ?_ h
          intro x hx hx1
          have hxid : x ≠ id := fun e => hid (e ▸ hx)
          rw [i2 x hxid]
          exact hun x (List.mem_cons_of_mem _ hx) (i3 x hx1)
    · exact ih hinv hnd' (fun x hx => hun x (List.mem_cons_of_mem _ hx)) h

/-- The placement loop keeps the keys unique and the balance of aliens and cities. -/
theorem initialPlacement_count (order : List Nat) {rs : List Nat} {n0 c0 : Nat}
    {world w' : World}
    (hinv : OccupancyInv world) (hnd : order.Nodup)
    (hun : ∀ x ∈ order, x ∈ world.aliens → (world.alienAt x).city = none)
    (hnda : world.aliens.Nodup) (hndc : world.cities.Nodup)
    (hcons : Conserved n0 c0 world)
    (h : initialPlacement world order rs = some w') :
    w'.aliens.Nodup ∧ w'.cities.Nodup ∧ Conserved n0 c0 w' := by
  induction order generalizing world rs with
  | nil => simp [initialPlacement] at h; subst h; exact ⟨hnda, hndc, hcons⟩
  | cons id order ih =>
    obtain ⟨hid, hnd'⟩ := List.nodup_cons.mp hnd
    simp only [initialPlacement] at h
    split at h
    · split at h
      · cases h; exact ⟨hnda, hndc, hcons⟩
      · cases ho : occupy world ⟨id, 0, chooseCity world rs.headI⟩ with
        | none => rw [ho] at h; cases h
        | some w1 =>
          rw [ho] at h
          have hready : PlaceReady world id :=
            placeReady_of_unplaced hinv (hun id (List.mem_cons_self _ _))
          obtain ⟨i1, i2, i3⟩ := occupy_inv world ⟨id, 0, _⟩ hready ho
          obtain ⟨a1, a2, a3⟩ := occupy_count world ⟨id, 0, _⟩ hready hnda hndc ho
          refine ih i1 hnd' ?_ a1 a2 (conserved_step hcons a3) h
          intro x hx hx1
          have hxid : x ≠ id := fun e => hid (e ▸ hx)
          rw [i2 x hxid]
          exact hun x (List.mem_cons_of_mem _ hx) (i3 x hx1)
    · exact ih hinv hnd' (fun x hx => hun x (List.mem_cons_of_mem _ hx)) hnda hndc hcons h

theorem occupancyInv_of_fresh {w : World} (h : Fresh w) : OccupancyInv w := by
  refine ⟨fun n hn x hx => ?_, fun x hx n hxn => ?_⟩
  · rw [h.1 n hn] at hx; cases hx
  · rw [h.2 x hx] at hxn; cases hxn

/-! ## The movement transition, case by case -/

/-- C6 (trapped rule): a registered alien whose city has no outgoing road is cancelled by
`spin`, whatever the direction, and nothing else changes: both registries, every city object
(roads and occupant), every alien's city and every other alien object stay as they were. -/
theorem spin_trapped (world : World) (hovercraft : Hovercraft) (frm : String)
    (hreg : hovercraft.alienId ∈ world.aliens)
    (hcity : (world.alienAt hovercraft.alienId).city = some frm)
    (hroads : (world.cityAt frm).roads = []) :
    ∃ w', spin world hovercraft = some w' ∧
      (w'.alienAt hovercraft.alienId).cancelled = true ∧
      w'.aliens = world.aliens ∧ w'.cities = world.cities ∧ w'.cityAt = world.cityAt ∧
      (∀ k, (w'.alienAt k).city = (world.alienAt k).city) ∧
      (∀ k, k ≠ hovercraft.alienId → w'.alienAt k = world.alienAt k) := by
  refine ⟨world.cancel hovercraft.alienId, ?_, ?_, rfl, rfl, rfl, ?_, ?_⟩
  · simp [spin, World.alienPtr, hreg, hcity, hroads]
  · simp [World.cancel]
  · intro k
    by_cases hk : k = hovercraft.alienId <;> simp [World.cancel, hk]
  · intro k hk
    simp [World.cancel, hk]

/-- Witness of `spin_trapped`: alien 0 sits in `Bar` of the one-way graph, which has no road. -/
theorem spin_trapped_witness :
    ∃ w', spin ((occupy (ParseWorld oneWay 1) ⟨0, 0, "Bar"⟩).getD (ParseWorld oneWay 1))
        ⟨0, 2, ""⟩ = some w' ∧
      (w'.alienAt 0).cancelled = true ∧
      w'.aliens = [0] ∧ w'.cities = ["Foo", "Bar"] ∧
      w'.cityAt = ((occupy (ParseWorld oneWay 1) ⟨0, 0, "Bar"⟩).getD
        (ParseWorld oneWay 1)).cityAt ∧
      (∀ k, (w'.alienAt k).city = (((occupy (ParseWorld oneWay 1) ⟨0, 0, "Bar"⟩).getD
        (ParseWorld oneWay 1)).alienAt k).city) ∧
      (∀ k, k ≠ 0 → w'.alienAt k = ((occupy (ParseWorld oneWay 1) ⟨0, 0, "Bar"⟩).getD
        (ParseWorld oneWay 1)).alienAt k) :=
  spin_trapped ((occupy (ParseWorld oneWay 1) ⟨0, 0, "Bar"⟩).getD (ParseWorld oneWay 1))
    ⟨0, 2, ""⟩ "Bar" (by decide) (by decide) (by decide)

/-- C7 (forfeit): a registered alien placed in a registered city that has at least one
outgoing road but none labelled with the requested direction: `spin` returns the world as it
was (registries, roads, occupants, alien objects, cancellation flags). -/
theorem spin_forfeit (world : World) (hovercraft : Hovercraft) (frm : String)
    (hreg : hovercraft.alienId ∈ world.aliens)
    (hcity : (world.alienAt hovercraft.alienId).city = some frm)
    (hfrm : frm ∈ world.cities)
    (hroads : (world.cityAt frm).roads ≠ [])
    (hnone : (world.cityAt frm).roads.lookup (Direction.String hovercraft.direction) = none) :
    spin world hovercraft = some world := by
  simp [spin, World.alienPtr, hreg, hcity, hroads, hfrm, hnone]

/-- Witness of `spin_forfeit`: alien 0 in `Bar` of the test graph asks for north; `Bar` has
only a road south. -/
theorem spin_forfeit_witness :
    spin ((occupy (ParseWorld testWorld 1) ⟨0, 0, "Bar"⟩).getD (ParseWorld testWorld 1))
        ⟨0, 0, ""⟩
      = some ((occupy (ParseWorld testWorld 1) ⟨0, 0, "Bar"⟩).getD (ParseWorld testWorld 1)) :=
  spin_forfeit ((occupy (ParseWorld testWorld 1) ⟨0, 0, "Bar"⟩).getD (ParseWorld testWorld 1))
    ⟨0, 0, ""⟩ "Bar" (by decide) (by decide) (by decide) (by decide) (by decide)

/-- C8 (move into an empty city): in a world with consistent occupancy, a registered alien
placed in `frm`, with a road in the requested direction to a registered city `toCity` that has
no occupant: after `spin` the alien occupies `toCity`, its city is `toCity`, `frm` (which
differs from `toCity`) has no occupant, and the alien registry, the city registry and every
road map are unchanged. -/
theorem spin_move_empty (world : World) (hovercraft : Hovercraft) (frm toCity : String)
    (hinv : OccupancyInv world)
    (hreg : hovercraft.alienId ∈ world.aliens)
    (hcity : (world.alienAt hovercraft.alienId).city = some frm)
    (hroad : (world.cityAt frm).roads.lookup (Direction.String hovercraft.direction)
      = some toCity)
    (hto : toCity ∈ world.cities)
    (hempty : (world.cityAt toCity).alien = none) :
    ∃ w', spin world hovercraft = some w' ∧
      (w'.cityAt toCity).alien = some hovercraft.alienId ∧
      (w'.alienAt hovercraft.alienId).city = some toCity ∧
      frm ≠ toCity ∧ (w'.cityAt frm).alien = none ∧
      w'.aliens = world.aliens ∧ w'.cities = world.cities ∧
      (∀ k, (w'.cityAt k).roads = (world.cityAt k).roads) := by
  obtain ⟨hfrm, hocc⟩ := hinv.2 _ hreg _ hcity
  have hne : frm ≠ toCity := by
    intro h
    rw [h, hempty] at hocc
    cases hocc
  have hne' : toCity ≠ frm := fun h => hne h.symm
  have hroads : (world.cityAt frm).roads ≠ [] := by
    intro h
    rw [h] at hroad
    simp at hroad
  refine ⟨((world.setCityAlien frm none).setAlienCity hovercraft.alienId
      (some toCity)).setCityAlien toCity (some hovercraft.alienId), ?_, ?_, ?_, hne, ?_,
      rfl, rfl, ?_⟩
  · simp [spin, World.alienPtr, hreg, hcity, hroads, hfrm, hroad, hto, hne', hempty]
  · simp
  · simp
  · simp [hne]
  · intro k
    simp

/-- Witness of `spin_move_empty`, the case `move alien` of `TestWorld_spin`: alien 0 in `Foo`
moves north into the empty `Bar`. -/
theorem spin_move_empty_witness :
    ∃ w', spin (placeAll (ParseWorld testWorld 1) [(0, "Foo")]) ⟨0, 0, ""⟩ = some w' ∧
      (w'.cityAt "Bar").alien = some 0 ∧ (w'.alienAt 0).city = some "Bar" ∧
      "Foo" ≠ "Bar" ∧ (w'.cityAt "Foo").alien = none ∧
      w'.aliens = (placeAll (ParseWorld testWorld 1) [(0, "Foo")]).aliens ∧
      w'.cities = (placeAll (ParseWorld testWorld 1) [(0, "Foo")]).cities ∧
      (∀ k, (w'.cityAt k).roads
        = ((placeAll (ParseWorld testWorld 1) [(0, "Foo")]).cityAt k).roads) :=
  spin_move_empty (placeAll (ParseWorld testWorld 1) [(0, "Foo")]) ⟨0, 0, ""⟩ "Foo" "Bar"
    (by decide) (by decide) (by decide) (by decide) (by decide) (by decide)

/-- C9 fails on the code: the graph `deadEnd` is structurally valid; the placement loop with
four aliens completes (aliens 0 and 1 destroy `Baz`, whose destruction leaves the road of
`Bar` to `Baz` behind; alien 2 lands in `Foo`, alien 3 in `Bar`).  In the world it leaves,
`deadEndPlaced`, occupancy is consistent, alien 2 sits in `Foo`, whose road north leads to
`Bar`, a registered city other than `Foo` occupied by alien 3.  There `spin` (alien 2,
north) calls `fight`, which panics in its pruning loop on `world.cities["Baz"].roads`: `Bar`
is not removed, and `spin` does not complete. -/
theorem spin_panics_on_road_to_destroyed_city :
    ValidGraph deadEnd ∧
      (initialPlacement (ParseWorld deadEnd 4) [0, 1, 2, 3] [2, 2, 0, 1]).map
        (fun w => (w.cities, w.aliens, (w.cityAt "Bar").roads))
        = some (["Foo", "Bar"], [2, 3], [("north", "Baz"), ("south", "Foo")]) ∧
      OccupancyInv deadEndPlaced ∧ 2 ∈ deadEndPlaced.aliens ∧
      (deadEndPlaced.alienAt 2).city = some "Foo" ∧
      (deadEndPlaced.cityAt "Foo").roads.lookup (Direction.String 0) = some "Bar" ∧
      "Bar" ≠ "Foo" ∧ "Bar" ∈ deadEndPlaced.cities ∧
      (deadEndPlaced.cityAt "Bar").alien = some 3 ∧
      spin deadEndPlaced ⟨2, 0, ""⟩ = none :=
  ⟨by decide, by decide, by decide, by decide, by decide, by decide, by decide, by decide,
    by decide, Option.isNone_iff_eq_none.mp (by decide)⟩

/-- A move into an occupied city whose roads are closed: in a world with consistent
occupancy, a registered
alien placed in `frm`, with a road in the requested direction to a registered city `toCity`
other than `frm` that has the occupant `incumbent`, and with every road of `toCity` leading
to a registered city: `spin` completes, the moving alien and the incumbent are cancelled and
absent from the alien registry, `toCity` is absent from the city registry, and `frm` is
still registered, with no occupant. -/
theorem spin_move_occupied (world : World) (hovercraft : Hovercraft) (frm toCity : String)
    (incumbent : Nat)
    (hinv : OccupancyInv world)
    (hreg : hovercraft.alienId ∈ world.aliens)
    (hcity : (world.alienAt hovercraft.alienId).city = some frm)
    (hroad : (world.cityAt frm).roads.lookup (Direction.String hovercraft.direction)
      = some toCity)
    (hne : toCity ≠ frm)
    (hto : toCity ∈ world.cities)
    (hocc : (world.cityAt toCity).alien = some incumbent)
    (hclosed : RoadsClosed world toCity) :
    ∃ w', spin world hovercraft = some w' ∧
      (w'.alienAt hovercraft.alienId).cancelled = true ∧
      (w'.alienAt incumbent).cancelled = true ∧
      hovercraft.alienId ∉ w'.aliens ∧ incumbent ∉ w'.aliens ∧
      toCity ∉ w'.cities ∧ frm ∈ w'.cities ∧ (w'.cityAt frm).alien = none := by
  obtain ⟨hfrm, _⟩ := hinv.2 _ hreg _ hcity
  have hocc1 : ((world.setCityAlien frm none).cityAt toCity).alien = some incumbent := by
    simp [hne, hocc]
  have hclosed1 : RoadsClosed (world.setCityAlien frm none) toCity := by
    intro r hr
    simp only [setCityAlien_roads, setCityAlien_cities] at hr ⊢
    exact hclosed r hr
  obtain ⟨w', hf⟩ := fight_isSome hovercraft.alienId (by simpa using hto) hocc1 hclosed1
  obtain ⟨_, a, ha, e1, e2, _, e4, e5, _⟩ := fight_effect hocc1 hf
  cases ha
  refine ⟨w', ?_, ?_, ?_, ?_, ?_, ?_, ?_, ?_⟩
  · rw [spin_eq_occupy hreg hcity hfrm hroad]
    simp only [occupy, setCityAlien_cities, hto, if_true, hocc1, World.alienPtr,
      setCityAlien_aliens, hreg]
    exact hf
  · rw [e4]; simp
  · rw [e4]; simp
  · rw [e1]; simp
  · rw [e1]; simp
  · rw [e2]; simp
  · rw [e2]; simp [hfrm, Ne.symm hne]
  · rw [e5]; simp

/-- Witness of `spin_move_occupied`, the case `destroy destination` of `TestWorld_spin`:
alien 0 in `Foo` moves north into `Bar`, held by alien 1. -/
theorem spin_move_occupied_witness :
    ∃ w', spin (placeAll (ParseWorld testWorld 2) [(0, "Foo"), (1, "Bar")]) ⟨0, 0, ""⟩
        = some w' ∧
      (w'.alienAt 0).cancelled = true ∧ (w'.alienAt 1).cancelled = true ∧
      0 ∉ w'.aliens ∧ 1 ∉ w'.aliens ∧
      "Bar" ∉ w'.cities ∧ "Foo" ∈ w'.cities ∧ (w'.cityAt "Foo").alien = none :=
  spin_move_occupied (placeAll (ParseWorld testWorld 2) [(0, "Foo"), (1, "Bar")]) ⟨0, 0, ""⟩
    "Foo" "Bar" 1 (by decide) (by decide) (by decide) (by decide) (by decide) (by decide)
    (by decide) (by decide)

/-! ## Initial placement of one alien -/

/-- C10 fails on the code: the graph `deadEnd` is structurally valid; in the placement loop
with four aliens, aliens 0 and 1 destroy `Baz`, whose destruction leaves the road of `Bar` to
`Baz` behind, and alien 2 lands in `Bar`.  In the world so reached, `deadEndHalfPlaced`,
alien 3 is registered and not yet placed and `Bar` is a registered city occupied by alien 2.
There `occupy` (alien 3, `Bar`) calls `fight`, which panics in its pruning loop on
`world.cities["Baz"].roads` instead of removing the two aliens and the city; the placement
loop of `StartWar` with these choices panics. -/
theorem occupy_panics_on_road_to_destroyed_city :
    ValidGraph deadEnd ∧
      (initialPlacement (ParseWorld deadEnd 4) [0, 1, 2] [2, 2, 1]).map
        (fun w => (w.cities, w.aliens, (w.cityAt "Bar").roads))
        = some (["Foo", "Bar"], [2, 3], [("north", "Baz"), ("south", "Foo")]) ∧
      3 ∈ deadEndHalfPlaced.aliens ∧ (deadEndHalfPlaced.alienAt 3).city = none ∧
      "Bar" ∈ deadEndHalfPlaced.cities ∧ (deadEndHalfPlaced.cityAt "Bar").alien = some 2 ∧
      occupy deadEndHalfPlaced ⟨3, 0, "Bar"⟩ = none ∧
      initialPlacement (ParseWorld deadEnd 4) [0, 1, 2, 3] [2, 2, 1, 1] = none :=
  ⟨by decide, by decide, by decide, by decide, by decide, by decide,
    Option.isNone_iff_eq_none.mp (by decide), Option.isNone_iff_eq_none.mp (by decide)⟩

/-- What `occupy` does when the roads of the city are closed: a registered alien and a
registered city `C` which either has no
occupant or has all its roads leading to registered cities.  Then `occupy` completes.  If `C`
had no occupant, the alien is now the occupant of `C`, `C` is the alien's city, and nothing
else changed: both registries, every road map, every other city object, every other alien
object and the alien's cancellation flag.  If `C` had the occupant `b`, both the alien and
`b` are cancelled and absent from the alien registry, and `C` is absent from the city
registry. -/
theorem occupy_spec (world : World) (hovercraft : Hovercraft)
    (hreg : hovercraft.alienId ∈ world.aliens)
    (hc : hovercraft.initialCity ∈ world.cities)
    (hclosed : (world.cityAt hovercraft.initialCity).alien = none ∨
      RoadsClosed world hovercraft.initialCity) :
    ∃ w', occupy world hovercraft = some w' ∧
      ((world.cityAt hovercraft.initialCity).alien = none →
        (w'.cityAt hovercraft.initialCity).alien = some hovercraft.alienId ∧
        (w'.alienAt hovercraft.alienId).city = some hovercraft.initialCity ∧
        w'.aliens = world.aliens ∧ w'.cities = world.cities ∧
        (∀ k, (w'.cityAt k).roads = (world.cityAt k).roads) ∧
        (∀ k, k ≠ hovercraft.initialCity → w'.cityAt k = world.cityAt k) ∧
        (∀ k, k ≠ hovercraft.alienId → w'.alienAt k = world.alienAt k) ∧
        (w'.alienAt hovercraft.alienId).cancelled
          = (world.alienAt hovercraft.alienId).cancelled) ∧
      (∀ b, (world.cityAt hovercraft.initialCity).alien = some b →
        (w'.alienAt hovercraft.alienId).cancelled = true ∧
        (w'.alienAt b).cancelled = true ∧
        hovercraft.alienId ∉ w'.aliens ∧ b ∉ w'.aliens ∧
        hovercraft.initialCity ∉ w'.cities) := by
  cases hal : (world.cityAt hovercraft.initialCity).alien with
  | none =>
    refine ⟨(world.setAlienCity hovercraft.alienId (some hovercraft.initialCity)).setCityAlien
      hovercraft.initialCity (some hovercraft.alienId), ?_, ?_, ?_⟩
    · simp [occupy, hc, hal, World.alienPtr, hreg]
    · intro _
      refine ⟨by simp, by simp, rfl, rfl, fun k => by simp, fun k hk => ?_, fun k hk => ?_,
        by simp⟩
      · simp [World.setCityAlien, World.setAlienCity, hk]
      · simp [World.setCityAlien, World.setAlienCity, hk]
    · intro b hb
      cases hb
  | some b =>
    have hcl : RoadsClosed world hovercraft.initialCity := by
      rcases hclosed with h | h
      · rw [hal] at h; cases h
      · exact h
    obtain ⟨w', hf⟩ := fight_isSome hovercraft.alienId hc hal hcl
    obtain ⟨_, a, ha, e1, e2, _, e4, _, _⟩ := fight_effect hal hf
    cases ha
    refine ⟨w', ?_, ?_, ?_⟩
    · simp only [occupy, hc, if_true, hal, World.alienPtr, hreg]
      exact hf
    · intro h
      cases h
    · intro b' hb'
      cases hb'
      refine ⟨?_, ?_, ?_, ?_, ?_⟩
      · rw [e4]; simp
      · rw [e4]; simp
      · rw [e1]; simp
      · rw [e1]; simp
      · rw [e2]; simp

/-- Witness of `occupy_spec`, the two cases of `TestWorld_occupy`: alien 0 is placed in the
empty `Foo`; then alien 1 is placed in `Foo`, held by alien 0. -/
theorem occupy_spec_witness :
    (∃ w', occupy (ParseWorld testWorld 1) ⟨0, 0, "Foo"⟩ = some w' ∧
      (w'.cityAt "Foo").alien = some 0 ∧ (w'.alienAt 0).city = some "Foo" ∧
      w'.aliens = [0] ∧ w'.cities = ["Foo", "Bar", "Baz", "Qu-ux"]) ∧
    (∃ w', occupy fooTaken ⟨1, 0, "Foo"⟩ = some w' ∧
      (w'.alienAt 1).cancelled = true ∧ (w'.alienAt 0).cancelled = true ∧
      1 ∉ w'.aliens ∧ 0 ∉ w'.aliens ∧ "Foo" ∉ w'.cities) := by
  constructor
  · obtain ⟨w', h, h1, _⟩ := occupy_spec (ParseWorld testWorld 1) ⟨0, 0, "Foo"⟩
      (by decide) (by decide) (Or.inl (by decide))
    obtain ⟨a1, a2, a3, a4, _⟩ := h1 (by decide)
    exact ⟨w', h, a1, a2, a3, a4⟩
  · obtain ⟨w', h, _, h2⟩ := occupy_spec fooTaken ⟨1, 0, "Foo"⟩
      (by decide) (by decide) (Or.inr (by decide))
    exact ⟨w', h, h2 0 (by decide)⟩

/-! ## Fights and dangling roads -/

/-- C1 fails on the code: in the one-way graph (`Foo` has a road north to `Bar`, `Bar` has no
road) with alien 0 in `Bar` and the registered challenger 1, `fight("Bar", 1)` completes and
removes `Bar` from the registry, but the remaining city `Foo` still has its road to `Bar`:
the pruning loop visits only the destinations of the destroyed city's own roads. -/
theorem fight_keeps_one_way_road :
    (ParseWorld oneWay 2).cities = ["Foo", "Bar"] ∧
      ((placeAll (ParseWorld oneWay 2) [(0, "Bar")]).cityAt "Bar").alien = some 0 ∧
      1 ∈ (placeAll (ParseWorld oneWay 2) [(0, "Bar")]).aliens ∧
      ∃ w', fight (placeAll (ParseWorld oneWay 2) [(0, "Bar")]) "Bar"
          ((placeAll (ParseWorld oneWay 2) [(0, "Bar")]).alienPtr 1) = some w' ∧
        w'.cities = ["Foo"] ∧ (w'.cityAt "Foo").roads = [("north", "Bar")] :=
  ⟨by decide, by decide, by decide,
    (fight (placeAll (ParseWorld oneWay 2) [(0, "Bar")]) "Bar" (some 1)).getD
      (ParseWorld oneWay 2),
    eq_some_getD (by decide) _, by decide, by decide⟩

/-- C2 fails on the code: the one-way graph is structurally valid; with three aliens, aliens 0
and 1 are both placed in `Bar` and destroy it, alien 2 is placed in `Foo`, the placement loop
completes with one city and one alien left, and the first movement intent (alien 2, north)
makes `spin` panic: the road of `Foo` leads to `Bar`, which is no longer in the registry. -/
theorem startWar_panics_on_one_way_road :
    ValidGraph oneWay ∧
      ((initialPlacement (ParseWorld oneWay 3) [0, 1, 2] [1, 1, 0]).map
        (fun w => (w.cities, w.aliens))) = some (["Foo"], [2]) ∧
      StartWar (ParseWorld oneWay 3) [0, 1, 2] [1, 1, 0] [⟨2, 0, ""⟩] = none :=
  ⟨by decide, by decide, Option.isNone_iff_eq_none.mp (by decide)⟩

/-- Whenever a fight has found an occupant in `city` and completed (so that `city` is
destroyed), a second `fight` on the same city name, with any challenger, panics on
`world.cities[city].alien` instead of returning. -/
theorem fight_twice_panics (world : World) (city : String) (a b : Option Nat) (w' : World)
    (hocc : (world.cityAt city).alien ≠ none)
    (h : fight world city a = some w') : fight w' city b = none := by
  cases hal : (world.cityAt city).alien with
  | none => exact absurd hal hocc
  | some i =>
    obtain ⟨_, _, _, _, e2, _⟩ := fight_effect hal h
    apply fight_of_not_mem
    rw [e2]
    simp

/-- C3 as stated fails: in the world of `TestWorld_fight` the city `Foo` has the occupant 0;
`fight("Foo", alien 1)` completes and destroys `Foo`; invoked a second time on the same
name, `fight` does not complete: it dereferences the city that is gone. -/
theorem fight_twice_counterexample :
    (fooTaken.cityAt "Foo").alien = some 0 ∧
      (fight fooTaken "Foo" (some 1)).map (fun w => (w.cities, w.aliens))
        = some (["Bar", "Baz", "Qu-ux"], []) ∧
      fight ((fight fooTaken "Foo" (some 1)).getD fooTaken) "Foo" (some 1) = none :=
  ⟨by decide, by decide,
    fight_twice_panics fooTaken "Foo" (some 1) (some 1)
      ((fight fooTaken "Foo" (some 1)).getD fooTaken) (by decide)
      (eq_some_getD (by decide) _)⟩

/-- C3 amended (fight is idempotent on a city without occupant): for a registered city
without occupant and any two challenger pointers, `fight` completes and returns the world as
it was, and a second `fight` on the same city name completes as well and again returns the
world as it was: city registry, road maps, alien registry and cancellation flags are
unchanged after the first call and after the second. -/
theorem fight_idempotent_without_occupant (world : World) (city : String)
    (a b : Option Nat)
    (hc : city ∈ world.cities) (hempty : (world.cityAt city).alien = none) :
    fight world city a = some world ∧
      (fight world city a).bind (fun w => fight w city b) = some world := by
  have h : ∀ x : Option Nat, fight world city x = some world := by
    intro x
    simp [fight, hc, hempty]
  exact ⟨h a, by rw [h a]; exact h b⟩

/-- Witness of `fight_idempotent_without_occupant`: two fights in the empty `Bar` of the
world of `TestWorld_fight`. -/
theorem fight_idempotent_without_occupant_witness :
    fight fooTaken "Bar" (some 1) = some fooTaken ∧
      (fight fooTaken "Bar" (some 1)).bind (fun w => fight w "Bar" (some 0)) = some fooTaken :=
  fight_idempotent_without_occupant fooTaken "Bar" (some 1) (some 0) (by decide) (by decide)

/-! ## Runs: placement followed by movement intents -/

/-- C4 (occupancy consistency and exclusivity): start from a freshly built world (no city
occupied, no alien placed), run the placement loop over aliens visited at most once each,
then let the coordinator handle any sequence of movement intents.  In every world `w'` so
reached, (1) and (2) occupancy is consistent (`OccupancyInv`), and (3) no alien is the
occupant of two registered cities. -/
theorem occupancy_invariant (world : World) (order rs : List Nat) (msgs : List Hovercraft)
    (w1 w' : World)
    (hfresh : Fresh world) (hnd : order.Nodup)
    (hplace : initialPlacement world order rs = some w1)
    (hspin : spinAll w1 msgs = some w') :
    OccupancyInv w' ∧
      ∀ n1 ∈ w'.cities, ∀ n2 ∈ w'.cities, ∀ a,
        (w'.cityAt n1).alien = some a → (w'.cityAt n2).alien = some a → n1 = n2 := by
  have h1 : OccupancyInv w1 :=
    initialPlacement_inv order (occupancyInv_of_fresh hfresh) hnd
      (fun x _ hx => hfresh.2 x hx) hplace
  have h2 : OccupancyInv w' := spinAll_inv msgs h1 hspin
  refine ⟨h2, ?_⟩
  intro n1 hn1 n2 hn2 a ha1 ha2
  have e1 := (h2.1 n1 hn1 a ha1).2
  have e2 := (h2.1 n2 hn2 a ha2).2
  rw [e1] at e2
  exact Option.some.inj e2

/-- Witness of `occupancy_invariant`: two aliens on the test graph, placed in `Foo` and `Bar`;
then alien 1 moves south into `Foo` and the two fight. -/
theorem occupancy_invariant_witness :
    OccupancyInv ((StartWar (ParseWorld testWorld 2) [0, 1] [0, 1] [⟨1, 1, ""⟩]).getD
        (ParseWorld testWorld 2)) ∧
      ∀ n1 ∈ ((StartWar (ParseWorld testWorld 2) [0, 1] [0, 1] [⟨1, 1, ""⟩]).getD
          (ParseWorld testWorld 2)).cities,
        ∀ n2 ∈ ((StartWar (ParseWorld testWorld 2) [0, 1] [0, 1] [⟨1, 1, ""⟩]).getD
          (ParseWorld testWorld 2)).cities, ∀ a,
        (((StartWar (ParseWorld testWorld 2) [0, 1] [0, 1] [⟨1, 1, ""⟩]).getD
          (ParseWorld testWorld 2)).cityAt n1).alien = some a →
        (((StartWar (ParseWorld testWorld 2) [0, 1] [0, 1] [⟨1, 1, ""⟩]).getD
          (ParseWorld testWorld 2)).cityAt n2).alien = some a → n1 = n2 :=
  occupancy_invariant (ParseWorld testWorld 2) [0, 1] [0, 1] [⟨1, 1, ""⟩]
    ((initialPlacement (ParseWorld testWorld 2) [0, 1] [0, 1]).getD (ParseWorld testWorld 2))
    ((StartWar (ParseWorld testWorld 2) [0, 1] [0, 1] [⟨1, 1, ""⟩]).getD
      (ParseWorld testWorld 2))
    (by decide) (by decide) (eq_some_getD (by decide) _) (eq_some_getD (by decide) _)

/-- C5 (alien conservation): start from a freshly built world with unique alien ids and
unique city names, run the placement loop over aliens visited at most once each, then let the
coordinator handle any sequence of movement intents, and let `w'` be any world so reached.
Every fight that takes effect in `w'` costs exactly two distinct aliens and exactly one city
(`FightLoss`): a completed `fight` of a registered challenger against another alien that
holds a city; a completed `occupy` of an unplaced registered alien in an occupied city; a
completed `spin` into an occupied city other than the one left.  Any completed `spin` loses
either nothing or exactly two aliens and one city.  Hence in `w'` the aliens lost are twice
the cities lost, neither registry has grown, and a world that started with two aliens has
lost at most one city. -/
theorem alien_conservation (world : World) (order rs : List Nat) (msgs : List Hovercraft)
    (w1 w' : World)
    (hfresh : Fresh world) (hnda : world.aliens.Nodup) (hndc : world.cities.Nodup)
    (hnd : order.Nodup)
    (hplace : initialPlacement world order rs = some w1)
    (hspin : spinAll w1 msgs = some w') :
    world.aliens.length - w'.aliens.length
        = 2 * (world.cities.length - w'.cities.length) ∧
      w'.aliens.length ≤ world.aliens.length ∧ w'.cities.length ≤ world.cities.length ∧
      (∀ m w'', spin w' m = some w'' →
        (w''.aliens.length = w'.aliens.length ∧ w''.cities.length = w'.cities.length) ∨
        (w''.aliens.length + 2 = w'.aliens.length ∧
          w''.cities.length + 1 = w'.cities.length)) ∧
      (world.aliens.length = 2 → world.cities.length - w'.cities.length ≤ 1) ∧
      (∀ city a b w'', (w'.cityAt city).alien = some b → a ∈ w'.aliens → a ≠ b →
        fight w' city (some a) = some w'' → FightLoss w' w'' a b city) ∧
      (∀ id c b w'', id ∈ w'.aliens → (w'.alienAt id).city = none →
        (w'.cityAt c).alien = some b →
        occupy w' ⟨id, 0, c⟩ = some w'' → FightLoss w' w'' id b c) ∧
      (∀ m frm toCity b w'', m.alienId ∈ w'.aliens →
        (w'.alienAt m.alienId).city = some frm →
        (w'.cityAt frm).roads.lookup (Direction.String m.direction) = some toCity →
        toCity ≠ frm → (w'.cityAt toCity).alien = some b →
        spin w' m = some w'' → FightLoss w' w'' m.alienId b toCity) := by
  have h0 : OccupancyInv world := occupancyInv_of_fresh hfresh
  have hun : ∀ x ∈ order, x ∈ world.aliens → (world.alienAt x).city = none :=
    fun x _ hx => hfresh.2 x hx
  have hc0 : Conserved world.aliens.length world.cities.length world := ⟨rfl, le_refl _⟩
  have h1 : OccupancyInv w1 := initialPlacement_inv order h0 hnd hun hplace
  obtain ⟨a1, a2, a3⟩ := initialPlacement_count order h0 hnd hun hnda hndc hc0 hplace
  have h2 : OccupancyInv w' := spinAll_inv msgs h1 hspin
  obtain ⟨b1, b2, b3, b4⟩ := spinAll_count msgs h1 a1 a2 a3 hspin
  refine ⟨by omega, by omega, b4, ?_, by omega, ?_, ?_, ?_⟩
  · intro m w'' hm
    exact (spin_count h2 b1 b2 hm).2.2
  · intro city a b w'' hb ha hab hf
    have hc : city ∈ w'.cities := (fight_effect hb hf).1
    exact fight_loss b1 b2 ha (h2.1 city hc b hb).1 hab hb hf
  · intro id c b w'' hid hunp hb ho
    exact occupy_loss h2 b1 b2 hid hunp hb ho
  · intro m frm toCity b w'' hreg hcity hroad hne hb hs
    exact spin_loss h2 b1 b2 hreg hcity hroad hne hb hs

/-- Witness of `alien_conservation`, the case `one fight` of `Test_StartWar`: two aliens on
the test graph, placed in `Foo` and `Bar`; alien 1 moves south into `Foo`; both aliens and
one city are lost, and the move is a fight that takes effect. -/
theorem alien_conservation_witness :
    (2 - ((StartWar (ParseWorld testWorld 2) [0, 1] [0, 1] [⟨1, 1, ""⟩]).getD
        (ParseWorld testWorld 2)).aliens.length
      = 2 * (4 - ((StartWar (ParseWorld testWorld 2) [0, 1] [0, 1] [⟨1, 1, ""⟩]).getD
        (ParseWorld testWorld 2)).cities.length)) ∧
    ((StartWar (ParseWorld testWorld 2) [0, 1] [0, 1] [⟨1, 1, ""⟩]).getD
        (ParseWorld testWorld 2)).cities.length = 3 ∧
    FightLoss fooBarTaken ((spin fooBarTaken ⟨1, 1, ""⟩).getD fooBarTaken) 1 0 "Foo" :=
  ⟨(alien_conservation (ParseWorld testWorld 2) [0, 1] [0, 1] [⟨1, 1, ""⟩]
    ((initialPlacement (ParseWorld testWorld 2) [0, 1] [0, 1]).getD (ParseWorld testWorld 2))
    ((StartWar (ParseWorld testWorld 2) [0, 1] [0, 1] [⟨1, 1, ""⟩]).getD
      (ParseWorld testWorld 2))
    (by decide) (by decide) (by decide) (by decide)
    (eq_some_getD (by decide) _) (eq_some_getD (by decide) _)).1, by decide,
   (alien_conservation (ParseWorld testWorld 2) [0, 1] [0, 1] [] fooBarTaken fooBarTaken
    (by decide) (by decide) (by decide) (by decide)
    (eq_some_getD (by decide) _) rfl).2.2.2.2.2.2.2 ⟨1, 1, ""⟩ "Bar" "Foo" 0
      ((spin fooBarTaken ⟨1, 1, ""⟩).getD fooBarTaken)
      (by decide) (by decide) (by decide) (by decide) (by decide)
      (eq_some_getD (by decide) _)⟩

/-! ## Stale signals -/

/-- C11 (stale movement intents): for an alien id that is not in the alien registry, `spin`
returns the world as it was, whatever the direction: no registry, road map, occupant, alien
object or cancellation flag changes. -/
theorem spin_stale (world : World) (hovercraft : Hovercraft)
    (hgone : hovercraft.alienId ∉ world.aliens) : spin world hovercraft = some world := by
  simp [spin, World.alienPtr, hgone]

/-- Witness of `spin_stale`: after the fight of `TestWorld_fight` alien 0 is gone; an intent
of its still arrives. -/
theorem spin_stale_witness :
    spin ((fight fooTaken "Foo" (some 1)).getD fooTaken) ⟨0, 3, ""⟩
      = some ((fight fooTaken "Foo" (some 1)).getD fooTaken) :=
  spin_stale ((fight fooTaken "Foo" (some 1)).getD fooTaken) ⟨0, 3, ""⟩ (by decide)

/-- C12 (fight requires an occupant): for a registered city without occupant and any
challenger pointer, `fight` returns the world as it was: the challenger is not cancelled and
stays registered, the city stays registered, no road map changes. -/
theorem fight_without_occupant (world : World) (city : String) (alien : Option Nat)
    (hc : city ∈ world.cities) (hempty : (world.cityAt city).alien = none) :
    fight world city alien = some world := by
  simp [fight, hc, hempty]

/-- Witness of `fight_without_occupant`: a fight in the empty `Foo` of the test graph. -/
theorem fight_without_occupant_witness :
    fight (ParseWorld testWorld 2) "Foo" (some 1) = some (ParseWorld testWorld 2) :=
  fight_without_occupant (ParseWorld testWorld 2) "Foo" (some 1) (by decide) (by decide)

/-! ## Direction labels -/

/-- C18 (direction labels): `Direction.String` maps 0, 1, 2, 3 to north, south, west, east,
four pairwise distinct labels, and every other integer to the empty string; the direction
`r % 4` of a movement intent names one of the four labels. -/
theorem direction_labels :
    Direction.String 0 = "north" ∧ Direction.String 1 = "south" ∧
      Direction.String 2 = "west" ∧ Direction.String 3 = "east" ∧
      ["north", "south", "west", "east"].Nodup ∧
      (∀ d : Int, d = 0 ∨ d = 1 ∨ d = 2 ∨ d = 3 ∨ Direction.String d = "") ∧
      (∀ r : Nat, Direction.String ((r % 4 : Nat) : Int) ∈ ["north", "south", "east", "west"]) := by
  refine ⟨by decide, by decide, by decide, by decide, by decide, ?_, ?_⟩
  · intro d
    by_cases h0 : d = 0
    · exact Or.inl h0
    by_cases h1 : d = 1
    · exact Or.inr (Or.inl h1)
    by_cases h2 : d = 2
    · exact Or.inr (Or.inr (Or.inl h2))
    by_cases h3 : d = 3
    · exact Or.inr (Or.inr (Or.inr (Or.inl h3)))
    · exact Or.inr (Or.inr (Or.inr (Or.inr (by simp [Direction.String, h0, h1, h2, h3]))))
  · intro r
    have h : r % 4 < 4 := Nat.mod_lt _ (by decide)
    generalize r % 4 = m at h
    interval_cases m <;> decide

/-! ## The actor loop -/

/-- The trace of the loop of `Invade` entered at iteration `move`: `k` intents, then the
completion signal, where `k` counts the iterations before the first one that sees the
cancellation, or all of them. -/
theorem invadeLoop_trace (id : Nat) (cancelled : Nat → Bool) (rand : Nat → Nat)
    (left move : Nat) :
    ∃ k, k ≤ left ∧ (∀ i, i < k → cancelled (move + i) = false) ∧
      (k < left → cancelled (move + k) = true) ∧
      invadeLoop id cancelled rand left move =
        (List.range k).map (fun i => Message.movement
          { alienId := id, direction := ((rand (move + i) % 4 : Nat) : Int),
            initialCity := "" }) ++ [Message.done] := by
  induction left generalizing move with
  | zero => exact ⟨0, le_refl _, fun i hi => absurd hi (Nat.not_lt_zero i), fun h => absurd h (Nat.lt_irrefl 0), rfl⟩
  | succ left ih =>
    by_cases hc : cancelled move = true
    · refine ⟨0, Nat.zero_le _, fun i hi => absurd hi (Nat.not_lt_zero i), fun _ => hc, ?_⟩
      simp [invadeLoop, hc]
    · obtain ⟨k, hk, hbefore, hat, htrace⟩ := ih (move + 1)
      have hc' : cancelled move = false := by simpa using hc
      refine ⟨k + 1, Nat.succ_le_succ hk, ?_, ?_, ?_⟩
      · intro i hi
        cases i with
        | zero => simpa using hc'
        | succ j =>
          have := hbefore j (Nat.lt_of_succ_lt_succ hi)
          rw [← this]
          congr 1
          omega
      · intro h
        have := hat (Nat.lt_of_succ_lt_succ h)
        rw [← this]
        congr 1
        omega
      · simp only [invadeLoop, hc', Bool.false_eq_true, if_false, htrace, List.range_succ_eq_map,
          List.map_cons, List.map_map, List.cons_append, Nat.add_zero]
        congr 2
        apply List.map_congr_left
        intro i _
        have e : move + i.succ = move + 1 + i := by omega
        simp only [Function.comp, e]

/-- C13 (actor loop trace): for every alien id, every budget `moves` and every history
`cancelled` of the cancellation signal as seen at the top of each iteration, `Invade` sends
`k` movement intents, then exactly one completion signal, and nothing more.  Here
`k ≤ moves`, no iteration before `k` saw the cancellation, and iteration `k` saw it unless
the budget was exhausted (`k = moves`); so `k = moves` when the cancellation is never seen,
and `k = 0` when it is seen at once.  Every intent carries the alien's id and a direction
within 0..3. -/
theorem invade_trace (id : Nat) (moves : Int) (cancelled : Nat → Bool) (rand : Nat → Nat) :
    ∃ k, k ≤ moves.toNat ∧ (∀ i, i < k → cancelled i = false) ∧
      (k < moves.toNat → cancelled k = true) ∧
      ((∀ i, i < moves.toNat → cancelled i = false) → k = moves.toNat) ∧
      (cancelled 0 = true → k = 0) ∧
      Alien.Invade id moves cancelled rand =
        (List.range k).map (fun i => Message.movement
          { alienId := id, direction := ((rand i % 4 : Nat) : Int), initialCity := "" })
          ++ [Message.done] ∧
      (∀ i, (0 : Int) ≤ ((rand i % 4 : Nat) : Int) ∧ ((rand i % 4 : Nat) : Int) ≤ 3) := by
  obtain ⟨k, hk, hbefore, hat, htrace⟩ := invadeLoop_trace id cancelled rand moves.toNat 0
  refine ⟨k, hk, ?_, ?_, ?_, ?_, ?_, ?_⟩
  · intro i hi
    simpa using hbefore i hi
  · intro h
    simpa using hat h
  · intro hnever
    by_contra hne
    have hlt : k < moves.toNat := lt_of_le_of_ne hk hne
    have h1 := hat hlt
    have h2 := hnever k hlt
    simp only [Nat.zero_add] at h1
    rw [h1] at h2
    cases h2
  · intro h0
    by_contra hne
    have hpos : 0 < k := Nat.pos_of_ne_zero hne
    have := hbefore 0 hpos
    simp only [Nat.zero_add] at this
    rw [h0] at this
    cases this
  · simpa [Alien.Invade] using htrace
  · intro i
    have h : rand i % 4 < 4 := Nat.mod_lt _ (by decide)
    omega

/-! ## City selection -/

theorem chooseCity_mem (world : World) (r : Nat) (h : world.cities ≠ []) :
    chooseCity world r ∈ world.cities := by
  have hlen : 0 < world.cities.length := List.length_pos.mpr h
  have hlt : r % world.cities.length < world.cities.length := Nat.mod_lt _ hlen
  have hne : world.cities.length ≠ 0 := Nat.pos_iff_ne_zero.mp hlen
  simp only [chooseCity, hne, if_false]
  rw [List.getD_eq_getElem _ _ hlt]
  exact List.getElem_mem _

/-- C15 as stated fails: in the world with the single city named by the empty string the
registry is not empty, yet `chooseCity` returns the empty stop value, and the placement loop
stops at the first alien and leaves it unplaced although a city remains. -/
theorem chooseCity_counterexample :
    (ParseWorld namelessCity 1).cities = [""] ∧
      chooseCity (ParseWorld namelessCity 1) 0 = "" ∧
      (initialPlacement (ParseWorld namelessCity 1) [0] [0]).map
        (fun w => (w.cities, w.aliens, (w.alienAt 0).city)) = some ([""], [0], none) :=
  ⟨by decide, by decide, by decide⟩

/-- C15 amended (city selection and early stop): for every world and every outcome `r` of the
random index, `chooseCity` returns a city of the registry whenever the registry is not empty
(also when that city is named by the empty string), and returns the empty stop value when
the registry is empty.  In a world in which no city is named by the empty string it returns
the empty stop value if and only if the registry is empty; hence the placement loop, when
it reaches a registered alien, stops if no city remains, and otherwise places the alien with
`occupy` in a city of the registry and goes on. -/
theorem chooseCity_spec (world : World) (r : Nat) :
    (world.cities ≠ [] → chooseCity world r ∈ world.cities) ∧
      (world.cities = [] → chooseCity world r = "") ∧
      ("" ∉ world.cities →
        (chooseCity world r = "" ↔ world.cities = []) ∧
        (∀ id order rs, id ∈ world.aliens →
          (world.cities = [] → initialPlacement world (id :: order) rs = some world) ∧
          (world.cities ≠ [] →
            chooseCity world rs.headI ∈ world.cities ∧
            initialPlacement world (id :: order) rs =
              (occupy world ⟨id, 0, chooseCity world rs.headI⟩).bind
                (fun w => initialPlacement w order rs.tail)))) := by
  have hempty : ∀ r', world.cities = [] → chooseCity world r' = "" := by
    intro r' h
    simp [chooseCity, h]
  refine ⟨chooseCity_mem world r, hempty r, ?_⟩
  intro hname
  have hiff : ∀ r', chooseCity world r' = "" ↔ world.cities = [] := by
    intro r'
    constructor
    · intro h
      by_contra hne
      exact hname (h ▸ chooseCity_mem world r' hne)
    · exact hempty r'
  refine ⟨hiff r, ?_⟩
  intro id order rs hid
  constructor
  · intro h
    simp [initialPlacement, hid, (hiff rs.headI).mpr h]
  · intro h
    refine ⟨chooseCity_mem world _ h, ?_⟩
    have hne : chooseCity world rs.headI ≠ "" := fun e => h ((hiff _).mp e)
    simp only [initialPlacement, hid, if_true, hne, if_false]
    cases occupy world ⟨id, 0, chooseCity world rs.headI⟩ <;> rfl

/-- Witness of `chooseCity_spec`: on the test graph (`TestWorld_chooseCity`), where no city has
the empty name, and on the world whose only city has the empty name. -/
theorem chooseCity_spec_witness :
    (chooseCity (ParseWorld testWorld 1) 6 ∈ (ParseWorld testWorld 1).cities ∧
      (chooseCity (ParseWorld testWorld 1) 6 = "" ↔ (ParseWorld testWorld 1).cities = [])) ∧
    chooseCity (ParseWorld namelessCity 1) 6 ∈ (ParseWorld namelessCity 1).cities :=
  ⟨⟨(chooseCity_spec (ParseWorld testWorld 1) 6).1 (by decide),
      ((chooseCity_spec (ParseWorld testWorld 1) 6).2.2 (by decide)).1⟩,
    (chooseCity_spec (ParseWorld namelessCity 1) 6).1 (by decide)⟩

/-! ## What the pruning loop of a fight touches -/

theorem lookup_of_mem {l : List (String × String)} {k v : String}
    (hnd : (l.map Prod.fst).Nodup) (h : (k, v) ∈ l) : l.lookup k = some v := by
  induction l with
  | nil => simp at h
  | cons x xs ih =>
    obtain ⟨a, b⟩ := x
    simp only [List.map_cons, List.nodup_cons] at hnd
    rcases List.mem_cons.mp h with e | e
    · cases e
      simp [List.lookup_cons]
    · have hne : k ≠ a := by
        intro hka
        apply hnd.1
        rw [← hka]
        exact List.mem_map.mpr ⟨(k, v), e, rfl⟩
      simp only [List.lookup_cons]
      have : (k == a) = false := by simpa using hne
      rw [this]
      exact ih hnd.2 e

theorem pruneRoads_nodup {l : List (String × String)} (city : String)
    (hnd : (l.map Prod.fst).Nodup) : ((pruneRoads l city).map Prod.fst).Nodup :=
  hnd.sublist ((List.filter_sublist l).map Prod.fst)

theorem mem_pruneRoads {l : List (String × String)} {city : String} {r : String × String} :
    r ∈ pruneRoads l city ↔ r ∈ l ∧ r.2 ≠ city := by
  simp [pruneRoads]

/-- The fold that a completed fight ran. -/
theorem fight_fold {world : World} {city : String} {alien : Option Nat} {b : Nat} {w' : World}
    (hb : (world.cityAt city).alien = some b) (h : fight world city alien = some w') :
    ∃ a w3, alien = some a ∧
      [0, 1, 2, 3].foldl (pruneStep city)
        (some ((((world.cancel a).cancel b).deleteAlien a).deleteAlien b)) = some w3 ∧
      w' = w3.deleteCity city := by
  unfold fight at h
  split at h
  · rw [hb] at h
    simp only at h
    cases alien with
    | none => simp at h
    | some a =>
      simp only at h
      split at h
      · cases h
      · rename_i w3 hf
        cases h
        exact ⟨a, w3, rfl, hf, rfl⟩
  · cases h

/-- The pruning loop changes the roads of a city only if the destroyed city has a road to it
under one of the labels the loop looks up. -/
theorem foldl_pruneStep_changed {city : String} (l : List Int) {w w' : World}
    (h : l.foldl (pruneStep city) (some w) = some w') (k : String)
    (hk : (w'.cityAt k).roads ≠ (w.cityAt k).roads) :
    ∃ d ∈ l, (Direction.String d, k) ∈ (w.cityAt city).roads := by
  induction l generalizing w with
  | nil => simp at h; subst h; exact absurd rfl hk
  | cons d0 l ih =>
    simp only [List.foldl] at h
    cases hs : pruneStep city (some w) d0 with
    | none => rw [hs, foldl_pruneStep_none] at h; cases h
    | some w1 =>
      rw [hs] at h
      have hsub : ∀ r, r ∈ (w1.cityAt city).roads → r ∈ (w.cityAt city).roads := by
        intro r hr
        rcases ((pruneStep_prunedFrom hs).2.2.2 city).2 with e | e
        · rw [e] at hr; exact hr
        · rw [e] at hr; exact (mem_pruneRoads.mp hr).1
      by_cases hk1 : (w'.cityAt k).roads = (w1.cityAt k).roads
      · refine ⟨d0, List.mem_cons_self _ _, ?_⟩
        have hk2 : (w1.cityAt k).roads ≠ (w.cityAt k).roads := fun e => hk (hk1.trans e)
        unfold pruneStep at hs
        simp only at hs
        split at hs
        · cases hs; exact absurd rfl hk2
        · rename_i dest hl
          split at hs
          · cases hs
            have hkd : k = dest := by
              by_contra hne
              apply hk2
              simp [hne]
            rw [hkd]
            exact mem_of_lookup hl
          · cases hs
      · obtain ⟨d, hd, hmem⟩ := ih h hk1
        exact ⟨d, List.mem_cons_of_mem _ hd, hsub _ hmem⟩

/-- The pruning loop prunes every city to which the destroyed city has a road under one of
the labels the loop looks up. -/
theorem foldl_pruneStep_pruned {city : String} (l : List Int) {w w' : World}
    (hnd : ((w.cityAt city).roads.map Prod.fst).Nodup)
    (h : l.foldl (pruneStep city) (some w) = some w') (d : Int) (hd : d ∈ l) (x : String)
    (hx : (Direction.String d, x) ∈ (w.cityAt city).roads) :
    (w'.cityAt x).roads = pruneRoads (w.cityAt x).roads city := by
  induction l generalizing w with
  | nil => simp at hd
  | cons d0 l ih =>
    simp only [List.foldl] at h
    cases hs : pruneStep city (some w) d0 with
    | none => rw [hs, foldl_pruneStep_none] at h; cases h
    | some w1 =>
      rw [hs] at h
      have p1 := pruneStep_prunedFrom hs
      have p2 := foldl_pruneStep_prunedFrom l h
      have keep : (w1.cityAt x).roads = pruneRoads (w.cityAt x).roads city →
          (w'.cityAt x).roads = pruneRoads (w.cityAt x).roads city := by
        intro e
        rcases (p2.2.2.2 x).2 with e2 | e2
        · rw [e2, e]
        · rw [e2, e, pruneRoads_idem]
      by_cases hd0 : d = d0
      · subst hd0
        apply keep
        have hl := lookup_of_mem hnd hx
        unfold pruneStep at hs
        simp only [hl] at hs
        split at hs
        · cases hs
          simp
        · cases hs
      · have hdl : d ∈ l := by
          rcases List.mem_cons.mp hd with e | e
          · exact absurd e hd0
          · exact e
        by_cases hx1 : (Direction.String d, x) ∈ (w1.cityAt city).roads
        · have hnd1 : ((w1.cityAt city).roads.map Prod.fst).Nodup := by
            rcases (p1.2.2.2 city).2 with e | e
            · rw [e]; exact hnd
            · rw [e]; exact pruneRoads_nodup city hnd
          have := ih hnd1 h hdl hx1
          rcases (p1.2.2.2 x).2 with e | e
          · rw [this, e]
          · rw [this, e, pruneRoads_idem]
        · apply keep
          rcases (p1.2.2.2 city).2 with e | e
          · rw [e] at hx1; exact absurd hx hx1
          · have hxc : x = city := by
              by_contra hne
              apply hx1
              rw [e]
              exact mem_pruneRoads.mpr ⟨hx, hne⟩
            rw [hxc]
            exact e

theorem label_direction {l : String} (h : l ∈ ["north", "south", "east", "west"]) :
    ∃ d ∈ ([0, 1, 2, 3] : List Int), Direction.String d = l := by
  simp only [List.mem_cons, List.mem_singleton, List.not_mem_nil, or_false] at h
  rcases h with rfl | rfl | rfl | rfl
  · exact ⟨0, by decide, by decide⟩
  · exact ⟨1, by decide, by decide⟩
  · exact ⟨3, by decide, by decide⟩
  · exact ⟨2, by decide, by decide⟩

/-- The roads after a completed fight that found an occupant: which cities are pruned. -/
theorem fight_roads {world : World} {city : String} {alien : Option Nat} {b : Nat}
    {w' : World} (hb : (world.cityAt city).alien = some b)
    (h : fight world city alien = some w') :
    (∀ k, (w'.cityAt k).roads ≠ (world.cityAt k).roads →
      ∃ d ∈ ([0, 1, 2, 3] : List Int), (Direction.String d, k) ∈ (world.cityAt city).roads) ∧
    (((world.cityAt city).roads.map Prod.fst).Nodup →
      ∀ d ∈ ([0, 1, 2, 3] : List Int), ∀ x,
        (Direction.String d, x) ∈ (world.cityAt city).roads →
        (w'.cityAt x).roads = pruneRoads (world.cityAt x).roads city) := by
  obtain ⟨a, w3, _, hf, hw⟩ := fight_fold hb h
  subst hw
  constructor
  · intro k hk
    exact foldl_pruneStep_changed _ hf k hk
  · intro hnd d hd x hx
    have hnd2 : ((((((world.cancel a).cancel b).deleteAlien a).deleteAlien b).cityAt
        city).roads.map Prod.fst).Nodup := hnd
    exact foldl_pruneStep_pruned _ hnd2 hf d hd x hx

/-- C20 (fight prunes nothing but roads to the destroyed city): after a completed fight that
found the occupant `b` in `city`, with challenger `a`: every other registered city stays
registered, with its occupant unchanged, and its road list is unchanged or is the previous
list without the entries whose destination is `city`, the latter only if `city` had a road
to it under one of the four direction labels; every registered alien other than `a` and `b`
stays registered, cancellation flag and city unchanged. -/
theorem fight_frame (world : World) (city : String) (alien : Option Nat) (b : Nat)
    (w' : World) (hb : (world.cityAt city).alien = some b)
    (h : fight world city alien = some w') :
    ∃ a, alien = some a ∧
      (∀ D ∈ world.cities, D ≠ city →
        D ∈ w'.cities ∧ (w'.cityAt D).alien = (world.cityAt D).alien ∧
        ((w'.cityAt D).roads = (world.cityAt D).roads ∨
          ((w'.cityAt D).roads = (world.cityAt D).roads.filter (fun r => r.2 != city) ∧
            ∃ d ∈ ([0, 1, 2, 3] : List Int),
              (Direction.String d, D) ∈ (world.cityAt city).roads))) ∧
      (∀ x ∈ world.aliens, x ≠ a → x ≠ b →
        x ∈ w'.aliens ∧ (w'.alienAt x).cancelled = (world.alienAt x).cancelled ∧
        (w'.alienAt x).city = (world.alienAt x).city) := by
  obtain ⟨_, a, ha, e1, e2, e3, e4, e5, e6⟩ := fight_effect hb h
  refine ⟨a, ha, ?_, ?_⟩
  · intro D hD hne
    refine ⟨?_, e5 D, ?_⟩
    · rw [e2]; simp [hD, hne]
    · by_cases hsame : (w'.cityAt D).roads = (world.cityAt D).roads
      · exact Or.inl hsame
      · right
        refine ⟨?_, (fight_roads hb h).1 D hsame⟩
        rcases e6 D with e | e
        · exact absurd e hsame
        · exact e
  · intro x hx hxa hxb
    refine ⟨?_, ?_, e3 x⟩
    · rw [e1]; simp [hx, hxa, hxb]
    · rw [e4]; simp [hxa, hxb]

/-- Witness of `fight_frame`, the fight of `TestWorld_fight`: `Bar` keeps its place and loses
its road to `Foo`. -/
theorem fight_frame_witness :
    ∃ a, some 1 = some a ∧
      (∀ D ∈ fooTaken.cities, D ≠ "Foo" →
        D ∈ ((fight fooTaken "Foo" (some 1)).getD fooTaken).cities ∧
        (((fight fooTaken "Foo" (some 1)).getD fooTaken).cityAt D).alien
          = (fooTaken.cityAt D).alien ∧
        ((((fight fooTaken "Foo" (some 1)).getD fooTaken).cityAt D).roads
            = (fooTaken.cityAt D).roads ∨
          ((((fight fooTaken "Foo" (some 1)).getD fooTaken).cityAt D).roads
              = (fooTaken.cityAt D).roads.filter (fun r => r.2 != "Foo") ∧
            ∃ d ∈ ([0, 1, 2, 3] : List Int),
              (Direction.String d, D) ∈ (fooTaken.cityAt "Foo").roads))) ∧
      (∀ x ∈ fooTaken.aliens, x ≠ a → x ≠ 0 →
        x ∈ ((fight fooTaken "Foo" (some 1)).getD fooTaken).aliens ∧
        (((fight fooTaken "Foo" (some 1)).getD fooTaken).alienAt x).cancelled
          = (fooTaken.alienAt x).cancelled ∧
        (((fight fooTaken "Foo" (some 1)).getD fooTaken).alienAt x).city
          = (fooTaken.alienAt x).city) :=
  fight_frame fooTaken "Foo" (some 1) 0 ((fight fooTaken "Foo" (some 1)).getD fooTaken)
    (by decide) (eq_some_getD (by decide) _)

/-- A fight on a closed reciprocal graph completes and leaves a closed reciprocal graph. -/
theorem fight_graphOk (world : World) (city : String) (a b : Nat)
    (hok : GraphOk world) (hc : city ∈ world.cities)
    (hb : (world.cityAt city).alien = some b) :
    ∃ w', fight world city (some a) = some w' ∧ GraphOk w' := by
  obtain ⟨hmaps, hclosed, hlab, hrec⟩ := hok
  obtain ⟨w', hf⟩ := fight_isSome a hc hb (hclosed city hc)
  obtain ⟨_, a', ha', _, e2, _, _, _, e6⟩ := fight_effect hb hf
  cases ha'
  have hpr := (fight_roads hb hf).2 (hmaps city hc)
  have hmem : ∀ n, n ∈ w'.cities ↔ n ∈ world.cities ∧ n ≠ city := by
    intro n
    rw [e2]
    simp
  have hsub : ∀ n r, r ∈ (w'.cityAt n).roads → r ∈ (world.cityAt n).roads := by
    intro n r hr
    rcases e6 n with e | e
    · rw [e] at hr; exact hr
    · rw [e] at hr; exact (mem_pruneRoads.mp hr).1
  have hkeep : ∀ n r, r ∈ (world.cityAt n).roads → r.2 ≠ city → r ∈ (w'.cityAt n).roads := by
    intro n r hr hne
    rcases e6 n with e | e
    · rw [e]; exact hr
    · rw [e]; exact mem_pruneRoads.mpr ⟨hr, hne⟩
  have hnot : ∀ n ∈ w'.cities, ∀ r ∈ (w'.cityAt n).roads, r.2 ≠ city := by
    intro n hn r hr hrc
    have hn0 := ((hmem n).mp hn).1
    have hr0 := hsub n r hr
    obtain ⟨r', hr', hback⟩ := hrec n hn0 r hr0
    rw [hrc] at hr'
    obtain ⟨d, hd, hdl⟩ := label_direction (hlab city hc r' hr')
    have hx : (Direction.String d, n) ∈ (world.cityAt city).roads := by
      rw [hdl, ← hback]
      exact hr'
    have := hpr d hd n hx
    rw [this] at hr
    exact (mem_pruneRoads.mp hr).2 hrc
  have hclosed' : ∀ n ∈ w'.cities, ∀ r ∈ (w'.cityAt n).roads, r.2 ≠ city ∧ r.2 ∈ w'.cities := by
    intro n hn r hr
    have hne := hnot n hn r hr
    exact ⟨hne, (hmem _).mpr ⟨hclosed n ((hmem n).mp hn).1 r (hsub n r hr), hne⟩⟩
  have hrec' : ∀ n ∈ w'.cities, ∀ r ∈ (w'.cityAt n).roads,
      ∃ r' ∈ (w'.cityAt r.2).roads, r'.2 = n := by
    intro n hn r hr
    obtain ⟨hn0, hnc⟩ := (hmem n).mp hn
    obtain ⟨r', hr', hback⟩ := hrec n hn0 r (hsub n r hr)
    exact ⟨r', hkeep _ r' hr' (by rw [hback]; exact hnc), hback⟩
  refine ⟨w', hf, ?_, ?_, ?_, hrec'⟩
  · intro n hn
    rcases e6 n with e | e
    · rw [e]; exact hmaps n ((hmem n).mp hn).1
    · rw [e]; exact pruneRoads_nodup city (hmaps n ((hmem n).mp hn).1)
  · intro n hn r hr
    exact (hclosed' n hn r hr).2
  · intro n hn r hr
    exact hlab n ((hmem n).mp hn).1 r (hsub n r hr)

/-- C19 (road closure is preserved on reciprocal graphs): in a world whose road lists are
maps, where every road leads to a registered city, carries one of the four direction labels
and has a return road, a fight in the registered city `city` with occupant `b` completes,
and in the world it leaves the same holds again: no remaining road leads to `city` or to
any other city missing from the registry, and every remaining road has a return road. -/
theorem fight_preserves_closure (world : World) (city : String) (a b : Nat)
    (hok : GraphOk world) (hc : city ∈ world.cities)
    (hb : (world.cityAt city).alien = some b) :
    ∃ w', fight world city (some a) = some w' ∧ GraphOk w' ∧
      (∀ n ∈ w'.cities, ∀ r ∈ (w'.cityAt n).roads, r.2 ≠ city ∧ r.2 ∈ w'.cities) ∧
      (∀ n ∈ w'.cities, ∀ r ∈ (w'.cityAt n).roads, ∃ r' ∈ (w'.cityAt r.2).roads, r'.2 = n) := by
  obtain ⟨w', hf, hok'⟩ := fight_graphOk world city a b hok hc hb
  obtain ⟨_, _, _, _, e2, _⟩ := fight_effect hb hf
  refine ⟨w', hf, hok', ?_, hok'.2.2.2⟩
  intro n hn r hr
  have hmem := hok'.2.1 n hn r hr
  refine ⟨?_, hmem⟩
  rw [e2] at hmem
  simpa using (List.mem_filter.mp hmem).2

/-- Witness of `fight_preserves_closure`, the fight of `TestWorld_fight`. -/
theorem fight_preserves_closure_witness :
    ∃ w', fight fooTaken "Foo" (some 1) = some w' ∧ GraphOk w' ∧
      (∀ n ∈ w'.cities, ∀ r ∈ (w'.cityAt n).roads, r.2 ≠ "Foo" ∧ r.2 ∈ w'.cities) ∧
      (∀ n ∈ w'.cities, ∀ r ∈ (w'.cityAt n).roads, ∃ r' ∈ (w'.cityAt r.2).roads, r'.2 = n) :=
  fight_preserves_closure fooTaken "Foo" 1 0 (by decide) (by decide) (by decide)

/-! ## Runs on closed reciprocal graphs never panic -/

theorem graphOk_congr {w w' : World} (hc : w'.cities = w.cities)
    (hr : ∀ k, (w'.cityAt k).roads = (w.cityAt k).roads) (h : GraphOk w) : GraphOk w' := by
  obtain ⟨h1, h2, h3, h4⟩ := h
  refine ⟨?_, ?_, ?_, ?_⟩
  · intro n hn
    rw [hr]
    exact h1 n (hc ▸ hn)
  · intro n hn r hrm
    rw [hr] at hrm
    rw [hc]
    exact h2 n (hc ▸ hn) r hrm
  · intro n hn r hrm
    rw [hr] at hrm
    exact h3 n (hc ▸ hn) r hrm
  · intro n hn r hrm
    rw [hr] at hrm
    rw [hr]
    exact h4 n (hc ▸ hn) r hrm

/-- On a closed reciprocal graph `occupy` completes for a registered alien and a registered
city. -/
theorem occupy_isSome (world : World) (hovercraft : Hovercraft) (hok : GraphOk world)
    (hreg : hovercraft.alienId ∈ world.aliens) (hc : hovercraft.initialCity ∈ world.cities) :
    ∃ w', occupy world hovercraft = some w' := by
  cases hal : (world.cityAt hovercraft.initialCity).alien with
  | none =>
    exact ⟨(world.setAlienCity hovercraft.alienId (some hovercraft.initialCity)).setCityAlien
      hovercraft.initialCity (some hovercraft.alienId),
      by simp [occupy, hc, hal, World.alienPtr, hreg]⟩
  | some b =>
    obtain ⟨w', hf⟩ := fight_isSome hovercraft.alienId hc hal (hok.2.1 _ hc)
    refine ⟨w', ?_⟩
    simp only [occupy, hc, if_true, hal, World.alienPtr, hreg]
    exact hf

/-- A completed `occupy` keeps a closed reciprocal graph closed and reciprocal, and adds no
city. -/
theorem occupy_graphOk (world : World) (hovercraft : Hovercraft) {w' : World}
    (hok : GraphOk world) (h : occupy world hovercraft = some w') :
    GraphOk w' ∧ (∀ n ∈ w'.cities, n ∈ world.cities) := by
  obtain ⟨hc, hreg, hcase⟩ := occupy_cases h
  rcases hcase with ⟨_, rfl⟩ | ⟨b, hb, hf⟩
  · exact ⟨@graphOk_congr world _ rfl (fun k => by simp) hok, fun n hn => hn⟩
  · obtain ⟨w'', hf'', hok''⟩ :=
      fight_graphOk world hovercraft.initialCity hovercraft.alienId b hok hc hb
    rw [hf] at hf''
    cases hf''
    refine ⟨hok'', ?_⟩
    obtain ⟨_, _, _, _, e2, _⟩ := fight_effect hb hf
    intro n hn
    rw [e2] at hn
    exact (List.mem_filter.mp hn).1

/-- The aliens after a completed `occupy`: none is new, the placed one has a city if it is
still registered, and the city of every other one is as before. -/
theorem occupy_after (world : World) (hovercraft : Hovercraft) {w' : World}
    (h : occupy world hovercraft = some w') :
    ∀ a ∈ w'.aliens, a ∈ world.aliens ∧
      (a = hovercraft.alienId → (w'.alienAt a).city ≠ none) ∧
      (a ≠ hovercraft.alienId → (w'.alienAt a).city = (world.alienAt a).city) := by
  obtain ⟨hc, hreg, hcase⟩ := occupy_cases h
  rcases hcase with ⟨_, rfl⟩ | ⟨b, hb, hf⟩
  · intro a ha
    refine ⟨by simpa using ha, ?_, ?_⟩
    · intro e; simp [e]
    · intro e; simp [e]
  · obtain ⟨_, a', ha', e1, _, e3, _⟩ := fight_effect hb hf
    cases ha'
    intro a ha
    rw [e1] at ha
    simp only [List.mem_filter, bne_iff_ne, ne_eq] at ha
    exact ⟨ha.1.1, fun e => absurd e (by simpa using ha.1.2), fun _ => e3 a⟩

/-- A completed `occupy` in a world where every other registered alien has a city leaves
every registered alien with a city. -/
theorem occupy_placed (world : World) (hovercraft : Hovercraft) {w' : World}
    (hothers : ∀ a ∈ world.aliens, a ≠ hovercraft.alienId → (world.alienAt a).city ≠ none)
    (h : occupy world hovercraft = some w') : Placed w' := by
  intro a ha
  obtain ⟨h1, h2, h3⟩ := occupy_after world hovercraft h a ha
  by_cases e : a = hovercraft.alienId
  · exact h2 e
  · rw [h3 e]
    exact hothers a h1 e

/-- With consistent occupancy, a closed reciprocal graph and every registered alien placed,
`spin` completes. -/
theorem spin_isSome (world : World) (hovercraft : Hovercraft)
    (hinv : OccupancyInv world) (hok : GraphOk world) (hpl : Placed world) :
    ∃ w', spin world hovercraft = some w' := by
  by_cases hreg : hovercraft.alienId ∈ world.aliens
  · cases hcity : (world.alienAt hovercraft.alienId).city with
    | none => exact absurd hcity (hpl _ hreg)
    | some frm =>
      obtain ⟨hfrm, _⟩ := hinv.2 _ hreg _ hcity
      by_cases hroads : (world.cityAt frm).roads = []
      · exact ⟨world.cancel hovercraft.alienId,
          by simp [spin, World.alienPtr, hreg, hcity, hroads]⟩
      · cases hroad : (world.cityAt frm).roads.lookup (Direction.String hovercraft.direction)
          with
        | none =>
          exact ⟨world, by simp [spin, World.alienPtr, hreg, hcity, hroads, hfrm, hroad]⟩
        | some toCity =>
          rw [spin_eq_occupy hreg hcity hfrm hroad]
          have hto : toCity ∈ world.cities := hok.2.1 frm hfrm _ (mem_of_lookup hroad)
          exact occupy_isSome (world.setCityAlien frm none)
            ⟨hovercraft.alienId, hovercraft.direction, toCity⟩
            (@graphOk_congr world _ rfl (fun k => by simp) hok) hreg hto
  · exact ⟨world, by simp [spin, World.alienPtr, hreg]⟩

/-- A completed `spin` keeps a closed reciprocal graph closed and reciprocal, keeps every
registered alien placed, and adds neither city nor alien. -/
theorem spin_keeps (world : World) (hovercraft : Hovercraft) {w' : World}
    (hok : GraphOk world) (hpl : Placed world) (h : spin world hovercraft = some w') :
    GraphOk w' ∧ Placed w' ∧ (∀ n ∈ w'.cities, n ∈ world.cities) ∧
      (∀ a ∈ w'.aliens, a ∈ world.aliens) := by
  rcases spin_cases h with ⟨_, rfl⟩ | ⟨hreg, frm, hcity, hc⟩
  · exact ⟨hok, hpl, fun _ hn => hn, fun _ ha => ha⟩
  · rcases hc with ⟨_, rfl⟩ | ⟨_, _, hc⟩
    · refine ⟨@graphOk_congr world _ rfl (fun k => rfl) hok, ?_, fun _ hn => hn,
        fun _ ha => ha⟩
      intro a ha
      rw [cancel_city]
      exact hpl a ha
    · rcases hc with ⟨_, rfl⟩ | ⟨toCity, _, hocc⟩
      · exact ⟨hok, hpl, fun _ hn => hn, fun _ ha => ha⟩
      · have hok1 : GraphOk (world.setCityAlien frm none) :=
          @graphOk_congr world _ rfl (fun k => by simp) hok
        obtain ⟨g1, g2⟩ := occupy_graphOk _ _ hok1 hocc
        refine ⟨g1, occupy_placed (world.setCityAlien frm none) _
          (fun a ha _ => hpl a ha) hocc, g2, ?_⟩
        intro a ha
        exact (occupy_after _ _ hocc a ha).1

/-- The coordinator loop completes on every sequence of movement intents, with consistent
occupancy, a closed reciprocal graph and every registered alien placed. -/
theorem spinAll_isSome (msgs : List Hovercraft) (world : World)
    (hinv : OccupancyInv world) (hok : GraphOk world) (hpl : Placed world) :
    ∃ w', spinAll world msgs = some w' := by
  induction msgs generalizing world with
  | nil => exact ⟨world, rfl⟩
  | cons m msgs ih =>
    obtain ⟨w1, h1⟩ := spin_isSome world m hinv hok hpl
    obtain ⟨g1, g2, _, _⟩ := spin_keeps world m hok hpl h1
    obtain ⟨w', h'⟩ := ih w1 (spin_inv hinv h1) g1 g2
    exact ⟨w', by simp [spinAll, h1, h']⟩

/-- The placement loop on a closed reciprocal graph without a city named by the empty
string: it completes, the graph stays closed and reciprocal, and at the end either no city
is left or every registered alien is placed. -/
theorem initialPlacement_complete (order : List Nat) (rs : List Nat) (world : World)
    (hinv : OccupancyInv world) (hok : GraphOk world) (hnd : order.Nodup)
    (hun : ∀ x ∈ order, x ∈ world.aliens → (world.alienAt x).city = none)
    (hname : "" ∉ world.cities)
    (hq : ∀ a ∈ world.aliens, a ∈ order ∨ (world.alienAt a).city ≠ none) :
    ∃ w', initialPlacement world order rs = some w' ∧ GraphOk w' ∧
      (w'.cities = [] ∨ Placed w') ∧ (∀ n ∈ w'.cities, n ∈ world.cities) := by
  induction order generalizing world rs with
  | nil =>
    refine ⟨world, rfl, hok, Or.inr ?_, fun _ hn => hn⟩
    intro a ha
    rcases hq a ha with h | h
    · simp at h
    · exact h
  | cons id order ih =>
    obtain ⟨hid, hnd'⟩ := List.nodup_cons.mp hnd
    by_cases hreg : id ∈ world.aliens
    · by_cases hstop : chooseCity world rs.headI = ""
      · have hempty : world.cities = [] := by
          by_contra hne
          exact hname (hstop ▸ chooseCity_mem world rs.headI hne)
        exact ⟨world, by simp [initialPlacement, hreg, hstop], hok, Or.inl hempty,
          fun _ hn => hn⟩
      · have hne : world.cities ≠ [] := by
          intro e
          apply hstop
          simp [chooseCity, e]
        have hmem := chooseCity_mem world rs.headI hne
        obtain ⟨w1, h1⟩ := occupy_isSome world ⟨id, 0, chooseCity world rs.headI⟩ hok hreg hmem
        have hready : PlaceReady world id :=
          placeReady_of_unplaced hinv (hun id (List.mem_cons_self _ _))
        obtain ⟨i1, i2, i3⟩ := occupy_inv world ⟨id, 0, _⟩ hready h1
        obtain ⟨g1, g2⟩ := occupy_graphOk world ⟨id, 0, _⟩ hok h1
        have haft := occupy_after world ⟨id, 0, _⟩ h1
        obtain ⟨w', h', k1, k2, k3⟩ := ih rs.tail w1 i1 g1 hnd'
          (fun x hx hx1 => by
            have hxid : x ≠ id := fun e => hid (e ▸ hx)
            rw [i2 x hxid]
            exact hun x (List.mem_cons_of_mem _ hx) (i3 x hx1))
          (fun hmem1 => hname (g2 _ hmem1))
          (fun a ha => by
            obtain ⟨a1, a2, a3⟩ := haft a ha
            by_cases e : a = id
            · exact Or.inr (a2 e)
            · rcases hq a a1 with h | h
              · rcases List.mem_cons.mp h with h | h
                · exact absurd h e
                · exact Or.inl h
              · right
                rw [a3 e]
                exact h)
        refine ⟨w', ?_, k1, k2, fun n hn => g2 n (k3 n hn)⟩
        simp only [initialPlacement, hreg, if_true, hstop, if_false, h1]
        exact h'
    · obtain ⟨w', h', k1, k2, k3⟩ := ih rs world hinv hok hnd'
        (fun x hx => hun x (List.mem_cons_of_mem _ hx)) hname
        (fun a ha => by
          rcases hq a ha with h | h
          · rcases List.mem_cons.mp h with h | h
            · exact absurd (h ▸ ha) hreg
            · exact Or.inl h
          · exact Or.inr h)
      exact ⟨w', by simp only [initialPlacement, hreg, if_false]; exact h', k1, k2, k3⟩

/-! ## Over-population -/

/-- With consistent occupancy, distinct alien ids and every registered alien placed, there
are at most as many aliens as cities. -/
theorem aliens_le_cities {w : World} (hinv : OccupancyInv w) (hpl : Placed w)
    (hnd : w.aliens.Nodup) : w.aliens.length ≤ w.cities.length := by
  have hcity : ∀ a ∈ w.aliens, (w.alienAt a).city = some ((w.alienAt a).city.getD "") := by
    intro a ha
    cases h : (w.alienAt a).city with
    | none => exact absurd h (hpl a ha)
    | some n => rfl
  have hinj : ∀ x ∈ w.aliens, ∀ y ∈ w.aliens,
      (w.alienAt x).city.getD "" = (w.alienAt y).city.getD "" → x = y := by
    intro x hx y hy e
    have h1 := (hinv.2 x hx _ (hcity x hx)).2
    have h2 := (hinv.2 y hy _ (hcity y hy)).2
    rw [e, h2] at h1
    exact (Option.some.inj h1).symm
  have hsub : w.aliens.map (fun a => (w.alienAt a).city.getD "") ⊆ w.cities := by
    intro n hn
    obtain ⟨a, ha, rfl⟩ := List.mem_map.mp hn
    exact (hinv.2 a ha _ (hcity a ha)).1
  have := (List.subperm_of_subset (List.Nodup.map_on hinj hnd) hsub).length_le
  simpa using this

/-- C17 as stated fails: the graph with the single city named by the empty string has no
road, so every road has a return road; with two aliens (twice the number of cities) the
placement loop stops at once on the stop value, the city remains, and `StartWar` enters the
concurrent phase with both aliens unplaced. -/
theorem overpopulation_counterexample :
    GraphOk (ParseWorld namelessCity 2) ∧ (ParseWorld namelessCity 2).cities.length = 1 ∧
      (ParseWorld namelessCity 2).aliens.length = 2 ∧
      (initialPlacement (ParseWorld namelessCity 2) [0, 1] [0, 0]).map
        (fun w => (w.cities, w.aliens)) = some ([""], [0, 1]) :=
  ⟨by decide, by decide, by decide, by decide⟩

/-- C17 amended (annihilation by over-population): a freshly built world with distinct alien
ids and distinct city names, none of them the empty string, whose graph is closed, labelled
with the four directions and reciprocal, and with at least twice as many aliens as cities;
the placement loop visits every alien once, in any order.  For every sequence `rs` of random
choices the placement loop completes and leaves no city, and `StartWar` returns that world
without handling any movement intent. -/
theorem overpopulation (world : World) (order rs : List Nat) (msgs : List Hovercraft)
    (hfresh : Fresh world) (hok : GraphOk world)
    (hnda : world.aliens.Nodup) (hndc : world.cities.Nodup) (hname : "" ∉ world.cities)
    (hord : order.Nodup) (hall : ∀ a ∈ world.aliens, a ∈ order)
    (hmany : 2 * world.cities.length ≤ world.aliens.length) :
    ∃ w', initialPlacement world order rs = some w' ∧ w'.cities.length = 0 ∧
      StartWar world order rs msgs = some w' := by
  have h0 : OccupancyInv world := occupancyInv_of_fresh hfresh
  have hun : ∀ x ∈ order, x ∈ world.aliens → (world.alienAt x).city = none :=
    fun x _ hx => hfresh.2 x hx
  obtain ⟨w', hp, _, hend, _⟩ := initialPlacement_complete order rs world h0 hok hord hun hname
    (fun a ha => Or.inl (hall a ha))
  have hinv : OccupancyInv w' := initialPlacement_inv order h0 hord hun hp
  obtain ⟨a1, _, a3, _⟩ := initialPlacement_count order h0 hord hun hnda hndc
    (⟨rfl, le_refl _⟩ : Conserved world.aliens.length world.cities.length world) hp
  have hzero : w'.cities.length = 0 := by
    rcases hend with h | h
    · simp [h]
    · have := aliens_le_cities hinv h a1
      omega
  refine ⟨w', hp, hzero, ?_⟩
  simp [StartWar, hp, hzero]

/-- Witness of `overpopulation`, the case `apocolypse` of `Test_StartWar`: ten aliens on the
test graph. -/
theorem overpopulation_witness :
    ∃ w', initialPlacement (ParseWorld testWorld 10) (List.range 10)
        [0, 1, 2, 3, 0, 1, 2, 3, 0, 1] = some w' ∧ w'.cities.length = 0 ∧
      StartWar (ParseWorld testWorld 10) (List.range 10) [0, 1, 2, 3, 0, 1, 2, 3, 0, 1]
        [⟨0, 0, ""⟩] = some w' :=
  overpopulation (ParseWorld testWorld 10) (List.range 10) [0, 1, 2, 3, 0, 1, 2, 3, 0, 1]
    [⟨0, 0, ""⟩] (by decide) (by decide) (by decide) (by decide) (by decide) (by decide)
    (by decide) (by decide)

/-! ## A lone alien -/

/-- Placing the only registered alien never meets an occupant. -/
theorem occupy_lone_empty {world : World} {hovercraft : Hovercraft}
    (hready : PlaceReady world hovercraft.alienId)
    (hone : ∀ x ∈ world.aliens, x = hovercraft.alienId)
    (hc : hovercraft.initialCity ∈ world.cities) :
    (world.cityAt hovercraft.initialCity).alien = none := by
  cases hal : (world.cityAt hovercraft.initialCity).alien with
  | none => rfl
  | some b =>
    obtain ⟨h1, h2, _⟩ := hready.1 _ hc b hal
    exact absurd (hone b h2) h1

/-- Placing the only registered alien, when it completes, changes neither registry nor any
road. -/
theorem occupy_lone (world : World) (hovercraft : Hovercraft) {w' : World}
    (hready : PlaceReady world hovercraft.alienId)
    (hone : ∀ x ∈ world.aliens, x = hovercraft.alienId)
    (h : occupy world hovercraft = some w') :
    w'.cities = world.cities ∧ w'.aliens = world.aliens ∧
      (∀ k, (w'.cityAt k).roads = (world.cityAt k).roads) := by
  obtain ⟨hc, _, hcase⟩ := occupy_cases h
  rcases hcase with ⟨_, rfl⟩ | ⟨b, hb, _⟩
  · exact ⟨rfl, rfl, fun k => by simp⟩
  · rw [occupy_lone_empty hready hone hc] at hb
    cases hb

/-- Placing the only registered alien in a registered city completes. -/
theorem occupy_lone_isSome (world : World) (hovercraft : Hovercraft)
    (hready : PlaceReady world hovercraft.alienId)
    (hone : ∀ x ∈ world.aliens, x = hovercraft.alienId)
    (hreg : hovercraft.alienId ∈ world.aliens)
    (hc : hovercraft.initialCity ∈ world.cities) :
    ∃ w', occupy world hovercraft = some w' :=
  ⟨(world.setAlienCity hovercraft.alienId (some hovercraft.initialCity)).setCityAlien
      hovercraft.initialCity (some hovercraft.alienId),
    by simp [occupy, hc, occupy_lone_empty hready hone hc, World.alienPtr, hreg]⟩

/-- A completed `spin` in a world with a single registered alien changes neither registry
nor any road. -/
theorem spin_lone (world : World) (hovercraft : Hovercraft) (a : Nat) {w' : World}
    (hinv : OccupancyInv world) (hone : ∀ x ∈ world.aliens, x = a)
    (h : spin world hovercraft = some w') :
    w'.cities = world.cities ∧ w'.aliens = world.aliens ∧
      (∀ k, (w'.cityAt k).roads = (world.cityAt k).roads) := by
  rcases spin_cases h with ⟨_, rfl⟩ | ⟨hreg, frm, hcity, hc⟩
  · exact ⟨rfl, rfl, fun _ => rfl⟩
  · rcases hc with ⟨_, rfl⟩ | ⟨_, _, hc⟩
    · exact ⟨rfl, rfl, fun _ => rfl⟩
    · rcases hc with ⟨_, rfl⟩ | ⟨toCity, _, hocc⟩
      · exact ⟨rfl, rfl, fun _ => rfl⟩
      · have hone' : ∀ x ∈ (world.setCityAlien frm none).aliens, x = hovercraft.alienId := by
          intro x hx
          rw [hone x hx, hone _ hreg]
        obtain ⟨e1, e2, e3⟩ := occupy_lone (world.setCityAlien frm none)
          ⟨hovercraft.alienId, hovercraft.direction, toCity⟩
          (placeReady_of_cleared hinv hreg hcity) hone' hocc
        exact ⟨e1, e2, fun k => by rw [e3 k]; simp⟩

/-- In a world with a single registered alien, placed, with consistent occupancy and every
road leading to a registered city, `spin` completes. -/
theorem spin_lone_isSome (world : World) (hovercraft : Hovercraft) (a : Nat)
    (hinv : OccupancyInv world) (hone : ∀ x ∈ world.aliens, x = a)
    (hpl : Placed world) (hclosed : Closed world) :
    ∃ w', spin world hovercraft = some w' := by
  by_cases hreg : hovercraft.alienId ∈ world.aliens
  · cases hcity : (world.alienAt hovercraft.alienId).city with
    | none => exact absurd hcity (hpl _ hreg)
    | some frm =>
      obtain ⟨hfrm, _⟩ := hinv.2 _ hreg _ hcity
      by_cases hroads : (world.cityAt frm).roads = []
      · exact ⟨world.cancel hovercraft.alienId,
          by simp [spin, World.alienPtr, hreg, hcity, hroads]⟩
      · cases hroad : (world.cityAt frm).roads.lookup (Direction.String hovercraft.direction)
          with
        | none =>
          exact ⟨world, by simp [spin, World.alienPtr, hreg, hcity, hroads, hfrm, hroad]⟩
        | some toCity =>
          rw [spin_eq_occupy hreg hcity hfrm hroad]
          have hto : toCity ∈ world.cities := hclosed frm hfrm _ (mem_of_lookup hroad)
          have hone' : ∀ x ∈ (world.setCityAlien frm none).aliens, x = hovercraft.alienId := by
            intro x hx
            rw [hone x hx, hone _ hreg]
          exact occupy_lone_isSome (world.setCityAlien frm none)
            ⟨hovercraft.alienId, hovercraft.direction, toCity⟩
            (placeReady_of_cleared hinv hreg hcity) hone' hreg hto
  · exact ⟨world, by simp [spin, World.alienPtr, hreg]⟩

/-- The coordinator loop in a world with a single registered alien changes neither registry
nor any road. -/
theorem spinAll_lone (msgs : List Hovercraft) (world : World) (a : Nat) {w' : World}
    (hinv : OccupancyInv world) (hone : ∀ x ∈ world.aliens, x = a)
    (h : spinAll world msgs = some w') :
    w'.cities = world.cities ∧ w'.aliens = world.aliens ∧
      (∀ k, (w'.cityAt k).roads = (world.cityAt k).roads) := by
  induction msgs generalizing world with
  | nil => simp [spinAll] at h; subst h; exact ⟨rfl, rfl, fun _ => rfl⟩
  | cons m msgs ih =>
    simp only [spinAll] at h
    cases hs : spin world m with
    | none => rw [hs] at h; cases h
    | some w1 =>
      rw [hs] at h
      obtain ⟨e1, e2, e3⟩ := spin_lone world m a hinv hone hs
      obtain ⟨f1, f2, f3⟩ := ih w1 (spin_inv hinv hs) (fun x hx => hone x (e2 ▸ hx)) h
      exact ⟨f1.trans e1, f2.trans e2, fun k => (f3 k).trans (e3 k)⟩

/-- The coordinator loop in a world with a single registered alien, placed, on a closed
graph, completes. -/
theorem spinAll_lone_isSome (msgs : List Hovercraft) (world : World) (a : Nat)
    (hinv : OccupancyInv world) (hone : ∀ x ∈ world.aliens, x = a)
    (hpl : Placed world) (hclosed : Closed world) :
    ∃ w', spinAll world msgs = some w' := by
  induction msgs generalizing world with
  | nil => exact ⟨world, rfl⟩
  | cons m msgs ih =>
    obtain ⟨w1, h1⟩ := spin_lone_isSome world m a hinv hone hpl hclosed
    obtain ⟨e1, e2, e3⟩ := spin_lone world m a hinv hone h1
    have hpl1 : Placed w1 := by
      rcases spin_cases h1 with ⟨_, rfl⟩ | ⟨hreg, frm, hcity, hc⟩
      · exact hpl
      · rcases hc with ⟨_, rfl⟩ | ⟨_, _, hc⟩
        · intro x hx
          rw [cancel_city]
          exact hpl x hx
        · rcases hc with ⟨_, rfl⟩ | ⟨toCity, _, hocc⟩
          · exact hpl
          · exact occupy_placed (world.setCityAlien frm none) _ (fun x hx _ => hpl x hx) hocc
    have hcl1 : Closed w1 := by
      intro n hn r hr
      rw [e3] at hr
      rw [e1] at hn ⊢
      exact hclosed n hn r hr
    obtain ⟨w', h'⟩ := ih w1 (spin_inv hinv h1) (fun x hx => hone x (e2 ▸ hx)) hpl1 hcl1
    exact ⟨w', by simp [spinAll, h1, h']⟩

/-- The placement loop in a world with a single registered alien: it completes, changes
neither registry nor any road, keeps occupancy consistent, and leaves the alien placed when
the loop reaches it and no city bears the empty name, unless there is no city. -/
theorem initialPlacement_lone (order : List Nat) (rs : List Nat) (world : World) (a : Nat)
    (hinv : OccupancyInv world) (hone : ∀ x ∈ world.aliens, x = a) (hnd : order.Nodup)
    (hun : ∀ x ∈ order, x ∈ world.aliens → (world.alienAt x).city = none) :
    ∃ w', initialPlacement world order rs = some w' ∧ OccupancyInv w' ∧
      w'.cities = world.cities ∧ w'.aliens = world.aliens ∧
      (∀ k, (w'.cityAt k).roads = (world.cityAt k).roads) ∧
      ("" ∉ world.cities → (∀ x ∈ world.aliens, x ∈ order ∨ (world.alienAt x).city ≠ none) →
        w'.cities = [] ∨ Placed w') := by
  induction order generalizing world rs with
  | nil =>
    refine ⟨world, rfl, hinv, rfl, rfl, fun _ => rfl, fun _ hq => Or.inr ?_⟩
    intro x hx
    rcases hq x hx with h | h
    · simp at h
    · exact h
  | cons id order ih =>
    obtain ⟨hid, hnd'⟩ := List.nodup_cons.mp hnd
    by_cases hreg : id ∈ world.aliens
    · by_cases hstop : chooseCity world rs.headI = ""
      · refine ⟨world, by simp [initialPlacement, hreg, hstop], hinv, rfl, rfl, fun _ => rfl,
          fun hname _ => Or.inl ?_⟩
        by_contra hne
        exact hname (hstop ▸ chooseCity_mem world rs.headI hne)
      · have hne : world.cities ≠ [] := by
          intro e
          apply hstop
          simp [chooseCity, e]
        have hmem := chooseCity_mem world rs.headI hne
        have hready : PlaceReady world id :=
          placeReady_of_unplaced hinv (hun id (List.mem_cons_self _ _))
        have hone' : ∀ x ∈ world.aliens, x = id := by
          intro x hx
          rw [hone x hx, hone id hreg]
        obtain ⟨w1, h1⟩ := occupy_lone_isSome world ⟨id, 0, chooseCity world rs.headI⟩
          hready hone' hreg hmem
        obtain ⟨e1, e2, e3⟩ := occupy_lone world ⟨id, 0, _⟩ hready hone' h1
        obtain ⟨i1, i2, i3⟩ := occupy_inv world ⟨id, 0, _⟩ hready h1
        have haft := occupy_after world ⟨id, 0, _⟩ h1
        obtain ⟨w', h', k1, k2, k3, k4, k5⟩ := ih rs.tail w1 i1
          (fun x hx => hone x (e2 ▸ hx)) hnd'
          (fun x hx hx1 => by
            have hxid : x ≠ id := fun e => hid (e ▸ hx)
            rw [i2 x hxid]
            exact hun x (List.mem_cons_of_mem _ hx) (i3 x hx1))
        refine ⟨w', ?_, k1, k2.trans e1, k3.trans e2, fun k => (k4 k).trans (e3 k), ?_⟩
        · simp only [initialPlacement, hreg, if_true, hstop, if_false, h1]
          exact h'
        · intro hname _
          exact k5 (by rw [e1]; exact hname) (fun x hx => Or.inr (by
            obtain ⟨_, a2, _⟩ := haft x hx
            exact a2 (hone' x (e2 ▸ hx))))
    · obtain ⟨w', h', k1, k2, k3, k4, k5⟩ := ih rs world hinv hone hnd'
        (fun x hx => hun x (List.mem_cons_of_mem _ hx))
      refine ⟨w', by simp only [initialPlacement, hreg, if_false]; exact h', k1, k2, k3, k4, ?_⟩
      intro hname hq
      apply k5 hname
      intro x hx
      rcases hq x hx with h | h
      · rcases List.mem_cons.mp h with h | h
        · exact absurd (h ▸ hx) hreg
        · exact Or.inl h
      · exact Or.inr h

/-- C16 (a lone alien never damages the graph): a freshly built world with exactly one alien,
any order and random choices of the placement loop, any sequence of movement intents.  If
`StartWar` returns, the city registry and every road list are those of the input.  And it
does return when every road leads to a registered city, no city is named by the empty
string and the placement loop visits the alien. -/
theorem lone_alien_keeps_graph (world : World) (a : Nat) (order rs : List Nat)
    (msgs : List Hovercraft)
    (hfresh : Fresh world) (hone : world.aliens = [a]) (hord : order.Nodup) :
    (∀ w', StartWar world order rs msgs = some w' →
      w'.cities = world.cities ∧ ∀ k, (w'.cityAt k).roads = (world.cityAt k).roads) ∧
    (Closed world → "" ∉ world.cities → a ∈ order →
      ∃ w', StartWar world order rs msgs = some w') := by
  have h0 : OccupancyInv world := occupancyInv_of_fresh hfresh
  have hone' : ∀ x ∈ world.aliens, x = a := by
    intro x hx
    rw [hone] at hx
    simpa using hx
  obtain ⟨w1, hp, i1, e1, e2, e3, e5⟩ := initialPlacement_lone order rs world a h0 hone' hord
    (fun x _ hx => hfresh.2 x hx)
  have hone1 : ∀ x ∈ w1.aliens, x = a := fun x hx => hone' x (e2 ▸ hx)
  constructor
  · intro w' hw
    simp only [StartWar, hp] at hw
    split at hw
    · cases hw
      exact ⟨e1, e3⟩
    · obtain ⟨f1, _, f3⟩ := spinAll_lone msgs w1 a i1 hone1 hw
      exact ⟨f1.trans e1, fun k => (f3 k).trans (e3 k)⟩
  · intro hclosed hname ha
    by_cases hz : w1.cities.length = 0
    · exact ⟨w1, by simp [StartWar, hp, hz]⟩
    · have hpl : Placed w1 := by
        rcases e5 hname (fun x hx => Or.inl (by rw [hone' x hx]; exact ha)) with h | h
        · rw [h] at hz
          exact absurd rfl hz
        · exact h
      have hcl1 : Closed w1 := by
        intro n hn r hr
        rw [e3] at hr
        rw [e1] at hn ⊢
        exact hclosed n hn r hr
      obtain ⟨w', h'⟩ := spinAll_lone_isSome msgs w1 a i1 hone1 hpl hcl1
      exact ⟨w', by simp [StartWar, hp, hz, h']⟩

/-- Witness of `lone_alien_keeps_graph`, the case `trapped` of `Test_StartWar`: one alien on
the test graph, placed in `Foo`, moving north, south, west and then asking for west again:
the run returns and the four cities remain. -/
theorem lone_alien_keeps_graph_witness :
    (∀ w', StartWar (ParseWorld testWorld 1) [0] [0]
        [⟨0, 0, ""⟩, ⟨0, 1, ""⟩, ⟨0, 2, ""⟩, ⟨0, 2, ""⟩] = some w' →
      w'.cities = ["Foo", "Bar", "Baz", "Qu-ux"] ∧
      ∀ k, (w'.cityAt k).roads = ((ParseWorld testWorld 1).cityAt k).roads) ∧
    ∃ w', StartWar (ParseWorld testWorld 1) [0] [0]
        [⟨0, 0, ""⟩, ⟨0, 1, ""⟩, ⟨0, 2, ""⟩, ⟨0, 2, ""⟩] = some w' :=
  ⟨(lone_alien_keeps_graph (ParseWorld testWorld 1) 0 [0] [0]
      [⟨0, 0, ""⟩, ⟨0, 1, ""⟩, ⟨0, 2, ""⟩, ⟨0, 2, ""⟩] (by decide) (by decide) (by decide)).1,
    (lone_alien_keeps_graph (ParseWorld testWorld 1) 0 [0] [0]
      [⟨0, 0, ""⟩, ⟨0, 1, ""⟩, ⟨0, 2, ""⟩, ⟨0, 2, ""⟩] (by decide) (by decide) (by decide)).2
      (by decide) (by decide) (by decide)⟩

/-! ## The coordinator loop and the actor loops -/

theorem countP_filter_split {α : Type} (P q : α → Bool) (l : List α) :
    l.countP P = (l.filter q).countP P + (l.filter (fun x => !q x)).countP P := by
  induction l with
  | nil => rfl
  | cons x xs ih =>
    cases hq : q x <;> cases hp : P x <;> simp [List.filter_cons, List.countP_cons, hq, hp, ih]
      <;> omega

/-- Counting the messages with a property actor by actor: an upper bound. -/
theorem countP_by_tag_le (P : Message → Bool) (c : Nat) (L : List Nat) (hnd : L.Nodup)
    (tagged : List (Nat × Message)) (htag : ∀ p ∈ tagged, p.1 ∈ L)
    (hc : ∀ id ∈ L, (tagged.filter (fun p => p.1 = id)).countP (fun p => P p.2) ≤ c) :
    tagged.countP (fun p => P p.2) ≤ c * L.length := by
  induction L generalizing tagged with
  | nil =>
    cases tagged with
    | nil => simp
    | cons p t => exact absurd (htag p (List.mem_cons_self _ _)) (List.not_mem_nil _)
  | cons a L ih =>
    obtain ⟨ha, hnd'⟩ := List.nodup_cons.mp hnd
    rw [countP_filter_split (fun p => P p.2) (fun p => decide (p.1 = a)) tagged]
    have h1 := hc a (List.mem_cons_self _ _)
    have h2 := ih hnd' (tagged.filter (fun p => !decide (p.1 = a)))
      (by
        intro p hp
        obtain ⟨hp1, hp2⟩ := List.mem_filter.mp hp
        rcases List.mem_cons.mp (htag p hp1) with e | e
        · simp [e] at hp2
        · exact e)
      (by
        intro id hid
        have hne : id ≠ a := fun e => ha (e ▸ hid)
        have := hc id (List.mem_cons_of_mem _ hid)
        rw [List.filter_filter]
        have hpred : (fun p : Nat × Message => (decide (p.1 = id) && !decide (p.1 = a)))
            = fun p => decide (p.1 = id) := by
          funext p
          by_cases e : p.1 = id
          · simp [e, hne]
          · simp [e]
        rw [hpred]
        exact this)
    simp only [List.length_cons, Nat.mul_succ]
    omega

/-- Counting the messages with a property actor by actor: a lower bound. -/
theorem countP_by_tag_ge (P : Message → Bool) (c : Nat) (L : List Nat) (hnd : L.Nodup)
    (tagged : List (Nat × Message))
    (hc : ∀ id ∈ L, c ≤ (tagged.filter (fun p => p.1 = id)).countP (fun p => P p.2)) :
    c * L.length ≤ tagged.countP (fun p => P p.2) := by
  induction L generalizing tagged with
  | nil => simp
  | cons a L ih =>
    obtain ⟨ha, hnd'⟩ := List.nodup_cons.mp hnd
    rw [countP_filter_split (fun p => P p.2) (fun p => decide (p.1 = a)) tagged]
    have h1 := hc a (List.mem_cons_self _ _)
    have h2 := ih hnd' (tagged.filter (fun p => !decide (p.1 = a)))
      (by
        intro id hid
        have hne : id ≠ a := fun e => ha (e ▸ hid)
        have := hc id (List.mem_cons_of_mem _ hid)
        rw [List.filter_filter]
        have hpred : (fun p : Nat × Message => (decide (p.1 = id) && !decide (p.1 = a)))
            = fun p => decide (p.1 = id) := by
          funext p
          by_cases e : p.1 = id
          · simp [e, hne]
          · simp [e]
        rw [hpred]
        exact this)
    simp only [List.length_cons, Nat.mul_succ]
    omega

theorem intents_length (msgs : List Message) :
    (intents msgs).length = msgs.countP (fun m => !m.isDone) := by
  induction msgs with
  | nil => rfl
  | cons m msgs ih =>
    cases m <;> simp [intents, Message.isDone, List.countP_cons, ih]

/-- The trace of `Invade` holds one completion signal, at its end, and at most `moves`
movement intents. -/
theorem invade_counts (id : Nat) (moves : Int) (cancelled : Nat → Bool) (rand : Nat → Nat) :
    (Alien.Invade id moves cancelled rand).countP Message.isDone = 1 ∧
      (Alien.Invade id moves cancelled rand).countP (fun m => !m.isDone) ≤ moves.toNat ∧
      ∃ init, Alien.Invade id moves cancelled rand = init ++ [Message.done] := by
  obtain ⟨k, hk, _, _, htrace⟩ := invadeLoop_trace id cancelled rand moves.toNat 0
  have hnone : ∀ l : List Nat, (l.map (fun i => Message.movement
      { alienId := id, direction := ((rand (0 + i) % 4 : Nat) : Int),
        initialCity := "" })).countP Message.isDone = 0 := by
    intro l
    induction l with
    | nil => rfl
    | cons x xs ih => simp [List.countP_cons, Message.isDone, ih]
  have hall : ∀ l : List Nat, (l.map (fun i => Message.movement
      { alienId := id, direction := ((rand (0 + i) % 4 : Nat) : Int),
        initialCity := "" })).countP (fun m => !m.isDone) = l.length := by
    intro l
    induction l with
    | nil => rfl
    | cons x xs ih => simp [List.countP_cons, Message.isDone, ih]
  unfold Alien.Invade
  rw [htrace]
  refine ⟨?_, ?_, _, rfl⟩
  · rw [List.countP_append, hnone]
    simp [Message.isDone]
  · rw [List.countP_append, hall]
    simp [Message.isDone]
    exact hk

/-- The coordinator loop receives all the messages and ends with the counter at zero, when
no `spin` panics, the messages hold as many completion signals as the counter says and the
last message is a completion signal. -/
theorem coordinate_all (msgs : List Message) (w : World) (n : Nat) (w' : World)
    (hspin : spinAll w (intents msgs) = some w')
    (hcount : msgs.countP Message.isDone = n)
    (hlast : ∀ init m, msgs = init ++ [m] → m = Message.done) :
    coordinate w n msgs = some (w', 0, []) := by
  induction msgs generalizing w n with
  | nil =>
    simp only [intents, spinAll, Option.some.injEq] at hspin
    simp only [List.countP_nil] at hcount
    subst hspin
    subst hcount
    rfl
  | cons m rest ih =>
    have hn : n ≠ 0 := by
      rcases List.eq_nil_or_concat (m :: rest) with e | ⟨init, x, e⟩
      · cases e
      · have hx : x = Message.done := hlast init x (by simpa using e)
        rw [e, hx] at hcount
        simp [List.countP_append, Message.isDone] at hcount
        omega
    have hlast' : ∀ init x, rest = init ++ [x] → x = Message.done := by
      intro init x e
      exact hlast (m :: init) x (by rw [e]; rfl)
    cases m with
    | movement h =>
      simp only [intents, spinAll] at hspin
      cases hs : spin w h with
      | none => rw [hs] at hspin; cases hspin
      | some w1 =>
        rw [hs] at hspin
        have hc' : rest.countP Message.isDone = n := by
          simpa [List.countP_cons, Message.isDone] using hcount
        have := ih w1 n hspin hc' hlast'
        simp only [coordinate, hn, if_false, hs]
        exact this
    | done =>
      simp only [intents] at hspin
      have hc' : rest.countP Message.isDone = n - 1 := by
        simp [List.countP_cons, Message.isDone] at hcount
        omega
      have := ih w (n - 1) hspin hc' hlast'
      simp only [coordinate, hn, if_false]
      exact this

/-- The messages of an interleaving of actor traces: one completion signal per actor, at
most 10000 intents per actor, and a completion signal at the end. -/
theorem interleaves_counts {w : World} {tagged : List (Nat × Message)}
    {cancelled : Nat → Nat → Bool} {rand : Nat → Nat → Nat}
    (hnd : w.aliens.Nodup) (h : Interleaves w tagged cancelled rand) :
    (tagged.map Prod.snd).countP Message.isDone = w.aliens.length ∧
      (intents (tagged.map Prod.snd)).length ≤ 10000 * w.aliens.length ∧
      (∀ init m, tagged.map Prod.snd = init ++ [m] → m = Message.done) := by
  obtain ⟨htag, htrace⟩ := h
  have hfilter : ∀ (P : Message → Bool) (id : Nat),
      (tagged.filter (fun p => p.1 = id)).countP (fun p => P p.2)
        = ((tagged.filter (fun p => p.1 = id)).map Prod.snd).countP P := by
    intro P id
    rw [List.countP_map]
    rfl
  have hmap : ∀ P : Message → Bool,
      (tagged.map Prod.snd).countP P = tagged.countP (fun p => P p.2) := by
    intro P
    rw [List.countP_map]
    rfl
  refine ⟨?_, ?_, ?_⟩
  · rw [hmap]
    apply le_antisymm
    · have := countP_by_tag_le Message.isDone 1 w.aliens hnd tagged htag (by
        intro id hid
        rw [hfilter, htrace id hid, (invade_counts id 10000 _ _).1])
      simpa using this
    · have := countP_by_tag_ge Message.isDone 1 w.aliens hnd tagged (by
        intro id hid
        rw [hfilter, htrace id hid, (invade_counts id 10000 _ _).1])
      simpa using this
  · rw [intents_length, hmap]
    exact countP_by_tag_le (fun m => !m.isDone) 10000 w.aliens hnd tagged htag (by
      intro id hid
      have hf := hfilter (fun m => !m.isDone) id
      rw [htrace id hid] at hf
      exact le_of_eq_of_le hf (invade_counts id 10000 _ _).2.1)
  · intro init m e
    rcases List.eq_nil_or_concat tagged with e0 | ⟨tinit, p, e0⟩
    · rw [e0] at e
      simp at e
    · rw [List.concat_eq_append] at e0
      have hp : p.2 = m := by
        rw [e0] at e
        simp only [List.map_append, List.map_cons, List.map_nil] at e
        exact (List.append_inj' e rfl).2 |> List.singleton_inj.mp
      have hid : p.1 ∈ w.aliens := htag p (by rw [e0]; simp)
      obtain ⟨tr, htr⟩ := (invade_counts p.1 10000 (cancelled p.1) (rand p.1)).2.2
      have := htrace p.1 hid
      rw [e0, List.filter_append, htr] at this
      simp only [List.filter_cons, decide_True, List.filter_nil, if_true,
        List.map_append, List.map_cons, List.map_nil] at this
      have h2 := (List.append_inj' this rfl).2
      rw [← hp]
      exact List.singleton_inj.mp h2

/-- C14 fails on the code: on the structurally valid one-way graph with three aliens the
placement loop leaves the city `Foo` and alien 2; the actor loop of alien 2, not cancelled,
sends the intent (alien 2, north) first, and the coordinator panics in `spin` on the road to
the destroyed `Bar`: `StartWar` does not return. -/
theorem startWar_does_not_return :
    ValidGraph oneWay ∧
      ((initialPlacement (ParseWorld oneWay 3) [0, 1, 2] [1, 1, 0]).map
        (fun w => (w.cities, w.aliens))) = some (["Foo"], [2]) ∧
      (initialPlacement (ParseWorld oneWay 3) [0, 1, 2] [1, 1, 0]).bind
        (fun w => coordinate w w.aliens.length
          (Alien.Invade 2 10000 (fun _ => false) (fun _ => 0))) = none :=
  ⟨by decide, by decide, Option.isNone_iff_eq_none.mp (by decide)⟩

/-- Termination of `StartWar` where no transition can fail: a freshly built world with
distinct alien ids and
distinct city names, none of them the empty string, whose graph is closed, labelled with the
four directions and reciprocal; the placement loop visits every alien once, in any order,
with any random choices.  Then the placement loop completes, in a world `w1`, and:
if `w1` has no city, `StartWar` returns `w1` without handling any movement intent;
otherwise, for every interleaving of the traces of the actor loops of the aliens of `w1`
(each running `Invade(10000)` under any history of its cancellation signal), the coordinator
receives every message, its counter reaches zero exactly with the last one, `StartWar`
returns, at most `10000 * (aliens of w1)` movement intents and exactly one completion signal
per alien of `w1` were handled; and if `w1` has no alien there is no message at all. -/
theorem startWar_terminates (world : World) (order rs : List Nat)
    (hfresh : Fresh world) (hok : GraphOk world)
    (hnda : world.aliens.Nodup) (hndc : world.cities.Nodup) (hname : "" ∉ world.cities)
    (hord : order.Nodup) (hall : ∀ a ∈ world.aliens, a ∈ order) :
    ∃ w1, initialPlacement world order rs = some w1 ∧
      (w1.cities.length = 0 → ∀ msgs, StartWar world order rs msgs = some w1) ∧
      (w1.cities.length ≠ 0 → ∀ tagged cancelled rand,
        Interleaves w1 tagged cancelled rand →
        ∃ w', coordinate w1 w1.aliens.length (tagged.map Prod.snd) = some (w', 0, []) ∧
          StartWar world order rs (intents (tagged.map Prod.snd)) = some w' ∧
          (intents (tagged.map Prod.snd)).length ≤ 10000 * w1.aliens.length ∧
          (tagged.map Prod.snd).countP Message.isDone = w1.aliens.length) ∧
      (w1.aliens = [] → ∀ tagged cancelled rand,
        Interleaves w1 tagged cancelled rand → tagged = []) := by
  have h0 : OccupancyInv world := occupancyInv_of_fresh hfresh
  have hun : ∀ x ∈ order, x ∈ world.aliens → (world.alienAt x).city = none :=
    fun x _ hx => hfresh.2 x hx
  obtain ⟨w1, hp, hok1, hend, _⟩ := initialPlacement_complete order rs world h0 hok hord hun
    hname (fun a ha => Or.inl (hall a ha))
  have hinv : OccupancyInv w1 := initialPlacement_inv order h0 hord hun hp
  obtain ⟨a1, _, _⟩ := initialPlacement_count order h0 hord hun hnda hndc
    (⟨rfl, le_refl _⟩ : Conserved world.aliens.length world.cities.length world) hp
  refine ⟨w1, hp, ?_, ?_, ?_⟩
  · intro hz msgs
    simp [StartWar, hp, hz]
  · intro hz tagged cancelled rand hint
    have hpl : Placed w1 := by
      rcases hend with h | h
      · rw [h] at hz
        exact absurd rfl hz
      · exact h
    obtain ⟨w', hs⟩ := spinAll_isSome (intents (tagged.map Prod.snd)) w1 hinv hok1 hpl
    obtain ⟨c1, c2, c3⟩ := interleaves_counts a1 hint
    refine ⟨w', coordinate_all _ w1 _ w' hs c1 c3, ?_, c2, c1⟩
    simp [StartWar, hp, hz, hs]
  · intro he tagged cancelled rand hint
    cases tagged with
    | nil => rfl
    | cons p t =>
      have := hint.1 p (List.mem_cons_self _ _)
      rw [he] at this
      exact absurd this (List.not_mem_nil _)

/-- Witness of `startWar_terminates`: two aliens on the test graph, placed in `Foo` and
`Bar`.  Alien 0 sends one intent (north, into `Bar`) and sees its cancellation in the next
iteration; alien 1 sees its own at once.  The coordinator receives the intent and the two
completion signals and stops. -/
theorem startWar_terminates_witness :
    ∃ w', coordinate fooBarTaken 2
        [Message.movement ⟨0, 0, ""⟩, Message.done, Message.done] = some (w', 0, []) ∧
      StartWar (ParseWorld testWorld 2) [0, 1] [0, 1] [⟨0, 0, ""⟩] = some w' := by
  obtain ⟨w1, hp, _, h2, _⟩ := startWar_terminates (ParseWorld testWorld 2) [0, 1] [0, 1]
    (by decide) (by decide) (by decide) (by decide) (by decide) (by decide) (by decide)
  have hw : w1 = fooBarTaken := by
    have e : initialPlacement (ParseWorld testWorld 2) [0, 1] [0, 1] = some fooBarTaken :=
      eq_some_getD (by decide) _
    rw [e] at hp
    exact (Option.some.inj hp).symm
  subst hw
  obtain ⟨w', k1, k2, _, _⟩ := h2 (by decide)
    [(0, Message.movement ⟨0, 0, ""⟩), (1, Message.done), (0, Message.done)]
    (fun id i => decide (id = 1 ∨ 1 ≤ i)) (fun _ _ => 0) (by decide)
  exact ⟨w', k1, k2⟩

end Invasion
